import Mathlib

/-!
# private-isu (Go web application): the feed cache slot, the user cache, makePosts

A sequential embedding of `webapp/golang/app.go`.

* Package-level variables (`indexContent`, `lastUpdated`, `lastTriggered`,
  `userCache`, `indexPostsMutex`) are fields of `World`.
* External collaborators (the clock `time.Now`, the MySQL server, the template
  engine, Go's map iteration order) are oracles collected in `Env`; `World`
  counts how often each has been consulted.
* Code that takes `indexPostsMutex` is a function `World → Option (result × World)`;
  `none` means the goroutine does not return (it blocks on the mutex forever, or
  the runtime aborts on an unlock of an unlocked mutex). Code that never touches
  the mutex is a total function `World → result × World`.
* `Step` is the sequential step relation: one operation of the program, run to
  completion; `Reachable` are the states it reaches from process start.
* `updateIndexPostsCheck` and `updateIndexPostsRest` are `updateIndexPosts` cut at
  the point where it holds no lock; `twoCallers` interleaves two calls there.
-/

set_option linter.dupNamespace false

namespace PrivateIsu

/-! ## Data model -/

/-- Go `time.Time`, as a count of nanoseconds since the Unix epoch; `After` is
strict `>`. -/
abbrev Time := Int

/-- Go `error` values (a nil error is `none : Option Error`). -/
structure Error where
  msg : String
deriving DecidableEq, Repr, Inhabited

/-- Go `type User struct`. -/
structure User where
  ID : Int
  AccountName : String
  Passhash : String
  Authority : Int
  DelFlg : Int
  CreatedAt : Time
deriving DecidableEq, Repr

/-- The zero value of `time.Time`: January 1, year 1, 00:00:00 UTC, which is
62135596800 seconds before the Unix epoch. -/
def zeroTime : Time := - 62135596800 * 1000000000

/-- The Go zero value `User{}`. -/
def User.zero : User :=
  { ID := 0, AccountName := "", Passhash := "", Authority := 0, DelFlg := 0,
    CreatedAt := zeroTime }

/-- Go `sql.NullInt64`. -/
structure NullInt64 where
  Int64 : Int
  Valid : Bool
deriving DecidableEq, Repr

/-- Go `sql.NullString`. -/
structure NullString where
  String : String
  Valid : Bool
deriving DecidableEq, Repr

/-- Go `sql.NullTime`. -/
structure NullTime where
  Time : Time
  Valid : Bool
deriving DecidableEq, Repr

/-- Go `type NullUser struct`. -/
structure NullUser where
  ID : NullInt64
  AccountName : NullString
  Authority : NullInt64
  DelFlg : NullInt64
  CreatedAt : NullTime
deriving DecidableEq, Repr

/-- Go `type NullComment struct`. -/
structure NullComment where
  ID : NullInt64
  PostID : NullInt64
  UserID : NullInt64
  Comment : NullString
  CreatedAt : NullTime
  User : NullUser
deriving DecidableEq, Repr

/-- Go `type Comment struct`. -/
structure Comment where
  Comment : String
  AuthorName : String
deriving DecidableEq, Repr

/-- Go `type Post struct`. -/
structure Post where
  ID : Int
  UserID : Int
  Imgdata : List Nat
  Body : String
  Mime : String
  CreatedAt : Time
  CommentCount : Int
  RN : Int
  Comment : NullComment
  Comments : List PrivateIsu.Comment
  User : User
  CSRFToken : String
deriving DecidableEq, Repr

/-! ## Machine integers -/

/-- Two's-complement wrap of an integer into the `int64` range. -/
def wrap64 (x : Int) : Int := (x + 2 ^ 63) % 2 ^ 64 - 2 ^ 63

/-- Go `time.Time.UnixNano`, an `int64`. -/
def UnixNano (t : Time) : Int := wrap64 t

/-! ## Instrumentation -/

/-- Observable actions, in program order. `DbSelectIndex held` records whether
`indexPostsMutex` was exclusively held when the feed query was issued. -/
inductive Event where
  | RLock
  | RUnlock
  | Lock
  | Unlock
  | Now
  | SfDo (key : String)
  | DbSelectIndex (writerHeld : Bool)
  | Render
  | DbGetUser (uid : Int)
  | DbExec
deriving DecidableEq, Repr

/-- External collaborators. -/
structure Env where
  /-- The value returned by the k-th call of `time.Now()` (k from 0). -/
  now : Nat → Time
  /-- The failure, if any, of the k-th statement sent to the database. -/
  dbError : Nat → Option Error
  /-- The rows the feed aggregation query yields when it is the k-th statement. -/
  indexRows : Nat → List Post
  /-- Output of `indexContentTemplate.ExecuteTemplate(buf, "index.html", {posts})`. -/
  render : List Post → String
  /-- The order in which `for _, p := range postMap` visits the map, given the
  entries in insertion order. -/
  mapRange : List Post → List Post
  /-- MySQL evaluation of `id = ?` for an integer column and a string parameter. -/
  sqlIdEq : Int → String → Bool

/-- Package-level state, the `users` table, and counters. -/
structure World where
  indexContent : String
  lastUpdated : Time
  lastTriggered : Time
  /-- The `cmap.ConcurrentMap[string, User]`, as an association list. -/
  userCache : List (String × User)
  /-- `indexPostsMutex` is held exclusively. -/
  writer : Bool
  /-- Number of read locks held on `indexPostsMutex`. -/
  readers : Nat
  /-- The database table `users`. -/
  users : List User
  /-- Number of `time.Now()` calls so far. -/
  nowCalls : Nat
  /-- Number of statements sent to the database so far. -/
  dbCalls : Nat
  /-- Number of executions of the feed aggregation query (the Recompute Function). -/
  indexQueries : Nat
  /-- Number of executions of the single-user query in `getSessionUser`. -/
  userQueries : Nat
  trace : List Event
deriving DecidableEq, Repr

/-- Go `time.Now()`. -/
def timeNow (env : Env) (w : World) : Time × World :=
  (env.now w.nowCalls, { w with nowCalls := w.nowCalls + 1, trace := w.trace ++ [Event.Now] })

/-- Go `t.After(u)`. -/
def After (t u : Time) : Bool := decide (u < t)

/-! ## `sync.RWMutex` (indexPostsMutex) -/

/-- `indexPostsMutex.RLock()`: waits while a writer holds the lock. -/
def RLock (w : World) : Option World :=
  if w.writer then none
  else some { w with readers := w.readers + 1, trace := w.trace ++ [Event.RLock] }

/-- `indexPostsMutex.RUnlock()`: aborts if no read lock is held. -/
def RUnlock (w : World) : Option World :=
  if w.readers = 0 then none
  else some { w with readers := w.readers - 1, trace := w.trace ++ [Event.RUnlock] }

/-- `indexPostsMutex.Lock()`: waits while any reader or a writer holds the lock. -/
def Lock (w : World) : Option World :=
  if w.writer ∨ w.readers ≠ 0 then none
  else some { w with writer := true, trace := w.trace ++ [Event.Lock] }

/-- `indexPostsMutex.Unlock()`: aborts if the lock is not held exclusively. -/
def Unlock (w : World) : Option World :=
  if w.writer then some { w with writer := false, trace := w.trace ++ [Event.Unlock] }
  else none

/-! ## makePosts -/

/-- One pass of the inner loop of Go's insertion sort (`slices.SortFunc` on a
slice of at most 12 elements): `x` moves left while `cmp(x, left neighbour) < 0`.
The part already sorted is given nearest neighbour first. -/
def sortInsert (cmp : Post → Post → Int) (x : Post) : List Post → List Post
  | [] => [x]
  | y :: ys => if cmp x y < 0 then y :: sortInsert cmp x ys else x :: y :: ys

/-- The outer loop of the insertion sort, left to right; `revPrefix` is the
processed part, nearest neighbour first. -/
def insertionSortAux (cmp : Post → Post → Int) : List Post → List Post → List Post
  | revPrefix, [] => revPrefix.reverse
  | revPrefix, x :: rest => insertionSortAux cmp (sortInsert cmp x revPrefix) rest

/-- Go `slices.SortFunc(posts, cmp)`, as the insertion sort that the library runs
on slices of at most 12 elements. On longer slices the library runs
pattern-defeating quicksort, which is not embedded: there this definition stands
for the documented contract of the library (the result is a rearrangement of the
slice, ordered by `cmp` whenever `cmp` is a strict weak ordering), and may differ
from the library in the order of elements that compare equal. -/
def SortFunc (posts : List Post) (cmp : Post → Post → Int) : List Post :=
  insertionSortAux cmp [] posts

/-- The comparator of `makePosts`: `int(j.CreatedAt.UnixNano() - i.CreatedAt.UnixNano())`.
The subtraction is an `int64` subtraction; `int` is 64 bits wide, so the conversion
changes nothing. -/
def postCmp (i j : Post) : Int := wrap64 (UnixNano j.CreatedAt - UnixNano i.CreatedAt)

/-- The first loop of `makePosts`: `postMap[p.ID] = p` unless the key is present.
The `append` to `p.Comments` updates the loop variable only, after the copy. -/
def buildPostMap : List Post → List Post → List Post
  | acc, [] => acc
  | acc, p :: rest =>
    if acc.any (fun q => q.ID == p.ID) then buildPostMap acc rest
    else buildPostMap (acc ++ [p]) rest

/-- Go `makePosts(results, csrfToken)`; `mapRange` is the iteration order of
`for _, p := range postMap`. -/
def makePosts (mapRange : List Post → List Post) (results : List Post) (csrfToken : String) :
    List Post × Option Error :=
  let postMap := buildPostMap [] results
  let posts := (mapRange postMap).map (fun p => { p with CSRFToken := csrfToken })
  (SortFunc posts postCmp, none)

/-! ## The feed cache slot -/

/-- The feed aggregation query `db.Select(&results, "WITH pu AS ...", postsPerPage)`
of `updateIndexPosts`. -/
def dbSelectIndex (env : Env) (w : World) : Except Error (List Post) × World :=
  let w1 : World :=
    { w with dbCalls := w.dbCalls + 1, indexQueries := w.indexQueries + 1,
             trace := w.trace ++ [Event.DbSelectIndex w.writer] }
  match env.dbError w.dbCalls with
  | some e => (Except.error e, w1)
  | none => (Except.ok (env.indexRows w.dbCalls), w1)

/-- The statements of the closure passed to `sf.Do` that follow
`defer indexPostsMutex.Unlock()`; the result is the closure's error. -/
def indexPostsBody (env : Env) (w : World) : Option Error × World :=
  match dbSelectIndex env w with
  | (Except.error e, w1) => (some e, w1)
  | (Except.ok results, w1) =>
    match makePosts env.mapRange results "" with
    | (_, some e) => (some e, w1)
    | (posts, none) =>
      let w2 : World := { w1 with trace := w1.trace ++ [Event.Render] }
      let w3 : World := { w2 with indexContent := env.render posts }
      let (t, w4) := timeNow env w3
      (none, { w4 with lastUpdated := t })

/-- The closure passed to `sf.Do("indexPosts", ...)`: lock, stamp `lastTriggered`,
run the body, and unlock when the closure returns (the deferred call). -/
def indexPostsClosure (env : Env) (w : World) : Option (Option Error × World) :=
  match Lock w with
  | none => none
  | some w1 =>
    let (t, w2) := timeNow env w1
    let w3 : World := { w2 with lastTriggered := t }
    let (err, w4) := indexPostsBody env w3
    match Unlock w4 with
    | none => none
    | some w5 => some (err, w5)

/-- `singleflight.Group.Do(key, fn)` when no call for `key` is in flight: `fn` runs
in the calling goroutine and its error is returned. -/
def sfDo (key : String) (fn : World → Option (Option Error × World)) (w : World) :
    Option (Option Error × World) :=
  fn { w with trace := w.trace ++ [Event.SfDo key] }

/-- Go `updateIndexPosts()`: the pair `(string, error)` and the state left behind. -/
def updateIndexPosts (env : Env) (w : World) : Option ((String × Option Error) × World) :=
  match RLock w with
  | none => none
  | some w1 =>
    if After w1.lastUpdated w1.lastTriggered then
      match RUnlock w1 with
      | none => none
      | some w2 => some ((w1.indexContent, none), w2)
    else
      match RUnlock w1 with
      | none => none
      | some w2 =>
        match sfDo "indexPosts" (indexPostsClosure env) w2 with
        | none => none
        | some (err, w3) =>
          match RLock w3 with
          | none => none
          | some w4 =>
            match RUnlock w4 with
            | none => none
            | some w5 =>
              match err with
              | some e => some (("", some e), w5)
              | none => some ((w4.indexContent, none), w5)

/-! ## `updateIndexPosts` in two scheduling units

A goroutine running `updateIndexPosts` holds no lock between the `RUnlock` that
ends the staleness check and the call of `sf.Do`; another goroutine can run in
between. The two definitions below are the function cut at that point. -/

/-- The first statements of `updateIndexPosts`, up to the `RUnlock` that follows the
staleness check: `some content` is the value returned on the fresh path, `none`
means that the caller found the slot stale and goes on to `sf.Do`. -/
def updateIndexPostsCheck (w : World) : Option (Option String × World) :=
  match RLock w with
  | none => none
  | some w1 =>
    if After w1.lastUpdated w1.lastTriggered then
      match RUnlock w1 with
      | none => none
      | some w2 => some (some w1.indexContent, w2)
    else
      match RUnlock w1 with
      | none => none
      | some w2 => some (none, w2)

/-- The statements of `updateIndexPosts` after the staleness check of a caller that
found the slot stale: `sf.Do` with no call for the key in flight, then the final
read under the read lock. -/
def updateIndexPostsRest (env : Env) (w2 : World) :
    Option ((String × Option Error) × World) :=
  match sfDo "indexPosts" (indexPostsClosure env) w2 with
  | none => none
  | some (err, w3) =>
    match RLock w3 with
    | none => none
    | some w4 =>
      match RUnlock w4 with
      | none => none
      | some w5 =>
        match err with
        | some e => some (("", some e), w5)
        | none => some ((w4.indexContent, none), w5)

/-- What a caller does after its check: return the fresh content, or run the rest. -/
def updateIndexPostsFinish (env : Env) (checked : Option String) (w : World) :
    Option ((String × Option Error) × World) :=
  match checked with
  | some content => some ((content, none), w)
  | none => updateIndexPostsRest env w

/-- Two goroutines A and B call `updateIndexPosts` at the same time and are
scheduled as: check of A, check of B, rest of A, rest of B. The call of A has
left `sf.Do` before B enters it, so the group starts a new execution for B.
The result is what A returns, what B returns, and the final state. -/
def twoCallers (env : Env) (w : World) :
    Option ((String × Option Error) × (String × Option Error) × World) :=
  match updateIndexPostsCheck w with
  | none => none
  | some (checkedA, w1) =>
    match updateIndexPostsCheck w1 with
    | none => none
    | some (checkedB, w2) =>
      match updateIndexPostsFinish env checkedA w2 with
      | none => none
      | some (resA, w3) =>
        match updateIndexPostsFinish env checkedB w3 with
        | none => none
        | some (resB, w4) => some (resA, resB, w4)

/-- The package-level initialisers, in declaration order:
`indexContent = ""`, `lastUpdated = time.Now()`, `lastTriggered = time.Now()`;
`userCache = cmap.New[User]()`; the mutex is unlocked. -/
def initWorld (env : Env) (users : List User) : World :=
  let w0 : World :=
    { indexContent := "", lastUpdated := 0, lastTriggered := 0, userCache := [],
      writer := false, readers := 0, users := users, nowCalls := 0, dbCalls := 0,
      indexQueries := 0, userQueries := 0, trace := [] }
  let (t1, w1) := timeNow env w0
  let w2 : World := { w1 with lastUpdated := t1 }
  let (t2, w3) := timeNow env w2
  { w3 with lastTriggered := t2 }

/-- The slot is fresh: `lastUpdated.After(lastTriggered)`. -/
def fresh (w : World) : Prop := w.lastTriggered < w.lastUpdated

instance (w : World) : Decidable (fresh w) := by unfold fresh; infer_instance

/-- The mutex `indexPostsMutex` is held by nobody. -/
def unlocked (w : World) : Prop := w.writer = false ∧ w.readers = 0

instance (w : World) : Decidable (unlocked w) := by unfold unlocked; infer_instance

/-! ## `strconv` -/

/-- Go `strconv.Itoa`: decimal digits, with a leading `-` for negative numbers. -/
def Itoa (i : Int) : String :=
  match i with
  | Int.ofNat n => Nat.repr n
  | Int.negSucc n => "-" ++ Nat.repr (n + 1)

/-- The value of a decimal digit. -/
def digitVal (c : Char) : Option Nat :=
  if 48 ≤ c.toNat ∧ c.toNat ≤ 57 then some (c.toNat - 48) else none

/-- The number written by a list of decimal digits, most significant first. -/
def parseDigits : List Char → Nat → Option Nat
  | [], acc => some acc
  | c :: cs, acc =>
    match digitVal c with
    | none => none
    | some d => parseDigits cs (acc * 10 + d)

/-- Digits of a non-empty string as a natural number. -/
def parseUnsigned (cs : List Char) : Option Nat :=
  match cs with
  | [] => none
  | _ :: _ => parseDigits cs 0

/-- Go `strconv.Atoi` (`none` is a non-nil error): an optional sign, at least one
decimal digit, and a value in the `int64` range. -/
def Atoi (s : String) : Option Int :=
  let signed : Option Int :=
    match s.data with
    | '+' :: cs => (parseUnsigned cs).map (fun n => (n : Int))
    | '-' :: cs => (parseUnsigned cs).map (fun n => - (n : Int))
    | cs => (parseUnsigned cs).map (fun n => (n : Int))
  match signed with
  | none => none
  | some v => if - 2 ^ 63 ≤ v ∧ v < 2 ^ 63 then some v else none

/-! ## The user cache (`cmap.ConcurrentMap[string, User]`) -/

/-- `userCache.Get(key)`. -/
def cmapGet (m : List (String × User)) (key : String) : Option User :=
  match m with
  | [] => none
  | (k, v) :: rest => if k = key then some v else cmapGet rest key

/-- `userCache.Remove(key)`. -/
def cmapRemove (m : List (String × User)) (key : String) : List (String × User) :=
  m.filter (fun kv => decide (kv.1 ≠ key))

/-- `userCache.Set(key, value)`. -/
def cmapSet (m : List (String × User)) (key : String) (value : User) : List (String × User) :=
  (key, value) :: cmapRemove m key

/-- `userCache.Clear()`. -/
def cmapClear (_m : List (String × User)) : List (String × User) := []

/-! ## Requests and sessions -/

/-- The values of the gorilla session that the handlers read. -/
structure Session where
  /-- `session.Values["user_id"]`; `none` when the key is absent or nil. -/
  user_id : Option Int
  /-- `session.Values["csrf_token"]`; `none` when the key is absent. -/
  csrf_token : Option String
deriving DecidableEq, Repr

/-- The parts of `*http.Request` that the handlers read. -/
structure Request where
  session : Session
  /-- The parsed form `r.Form`. -/
  form : List (String × List String)
  /-- The error returned by `r.ParseForm()`. -/
  parseFormError : Option Error
deriving DecidableEq, Repr

/-- What a handler writes: the status code and the `Location` header. -/
structure Response where
  status : Nat
  location : String
deriving DecidableEq, Repr

/-- `r.Form[key]`. -/
def formValues (r : Request) (key : String) : List String :=
  match r.form.find? (fun kv => kv.1 == key) with
  | none => []
  | some kv => kv.2

/-- `r.FormValue(key)`: the first value, or the empty string. -/
def FormValue (r : Request) (key : String) : String :=
  match formValues r key with
  | [] => ""
  | v :: _ => v

/-- Go `getCSRFToken(r)`. -/
def getCSRFToken (r : Request) : String :=
  match r.session.csrf_token with
  | none => ""
  | some t => t

/-- Go `isLogin(u)`. -/
def isLogin (u : User) : Bool := u.ID != 0

/-! ## Database statements on the `users` table -/

/-- The error `sql.ErrNoRows`. -/
def ErrNoRows : Error := { msg := "sql: no rows in result set" }

/-- The statement "SELECT * FROM users WHERE id = ?" run by `db.Get(&u, ..., uid)`. -/
def dbGetUser (env : Env) (uid : Int) (w : World) : Except Error User × World :=
  let w1 : World :=
    { w with dbCalls := w.dbCalls + 1, userQueries := w.userQueries + 1,
             trace := w.trace ++ [Event.DbGetUser uid] }
  match env.dbError w.dbCalls with
  | some e => (Except.error e, w1)
  | none =>
    match w.users.find? (fun u => u.ID == uid) with
    | none => (Except.error ErrNoRows, w1)
    | some u => (Except.ok u, w1)

/-- A `db.Exec` whose error is ignored; `f` is its effect on the `users` table
when the statement runs. -/
def dbExecUsers (env : Env) (f : List User → List User) (w : World) : World :=
  let w1 : World := { w with dbCalls := w.dbCalls + 1, trace := w.trace ++ [Event.DbExec] }
  match env.dbError w.dbCalls with
  | some _ => w1
  | none => { w1 with users := f w1.users }

/-- Go `dbInitialize()`: five statements, run in order, errors ignored. The tables
`posts` and `comments` are not part of the state. -/
def dbInitialize (env : Env) (w : World) : World :=
  let w1 := dbExecUsers env (fun us => us.filter (fun u => decide (¬ u.ID > 1000))) w
  let w2 := dbExecUsers env id w1
  let w3 := dbExecUsers env id w2
  let w4 := dbExecUsers env (fun us => us.map (fun u => { u with DelFlg := 0 })) w3
  dbExecUsers env
    (fun us => us.map (fun u => if u.ID % 50 = 0 then { u with DelFlg := 1 } else u)) w4

/-! ## Handlers -/

/-- Go `getSessionUser(r)`. -/
def getSessionUser (env : Env) (r : Request) (w : World) : User × World :=
  match r.session.user_id with
  | none => (User.zero, w)
  | some uid =>
    match cmapGet w.userCache (Itoa uid) with
    | some u => (u, w)
    | none =>
      match dbGetUser env uid w with
      | (Except.error _, w1) => (User.zero, w1)
      | (Except.ok u, w1) => (u, { w1 with userCache := cmapSet w1.userCache (Itoa u.ID) u })

/-- Go `getInitialize(w, r)`; `deleteImageFiles` touches the file system only. -/
def getInitialize (env : Env) (w : World) : Response × World :=
  let w1 := dbInitialize env w
  let w2 : World := { w1 with userCache := cmapClear w1.userCache }
  ({ status := 200, location := "" }, w2)

/-- The loop of `postAdminBanned`:
`for _, id := range r.Form["uid[]"] { db.Exec(query, 1, id); userCache.Remove(id) }`. -/
def banLoop (env : Env) (ids : List String) (w : World) : World :=
  match ids with
  | [] => w
  | id :: rest =>
    let w1 := dbExecUsers env
      (fun us => us.map (fun u => if env.sqlIdEq u.ID id then { u with DelFlg := 1 } else u)) w
    let w2 : World := { w1 with userCache := cmapRemove w1.userCache id }
    banLoop env rest w2

/-- Go `postAdminBanned(w, r)`. -/
def postAdminBanned (env : Env) (r : Request) (w : World) : Response × World :=
  let (me, w1) := getSessionUser env r w
  if !isLogin me then ({ status := 302, location := "/" }, w1)
  else if me.Authority == 0 then ({ status := 403, location := "" }, w1)
  else if FormValue r "csrf_token" != getCSRFToken r then ({ status := 422, location := "" }, w1)
  else
    match r.parseFormError with
    | some _ => ({ status := 200, location := "" }, w1)
    | none =>
      ({ status := 302, location := "/admin/banned" }, banLoop env (formValues r "uid[]") w1)

/-! ## Posting handlers -/

/-- What a handler leaves for the client. -/
inductive Reply where
  /-- `http.Redirect(w, r, location, http.StatusFound)`, after storing the flash
  notice, if any, in the session. -/
  | redirect (location : String) (notice : Option String)
  /-- `w.WriteHeader(code)`. -/
  | status (code : Nat)
  /-- The handler returns without writing a response. -/
  | silent
  /-- A run-time panic in the handler. -/
  | panicked
deriving DecidableEq, Repr

/-- The uploaded file returned by `r.FormFile("file")`. -/
structure Upload where
  /-- `header.Header["Content-Type"]`. -/
  contentType : List String
  /-- The bytes that `io.ReadAll(file)` yields. -/
  filedata : List Nat
deriving DecidableEq, Repr

/-- The outcomes of the external calls of one `postIndex` request. -/
structure PostIndexInput where
  /-- `r.FormFile("file")`; `none` when it returns an error. -/
  upload : Option Upload
  /-- The error of `io.ReadAll(file)`. -/
  readError : Option Error
  /-- The error of `result.LastInsertId()`. -/
  lastInsertIdError : Option Error
  /-- The id returned by `result.LastInsertId()`. -/
  pid : Int
  /-- The error of `os.WriteFile`. -/
  writeFileError : Option Error
deriving DecidableEq, Repr

/-- Go `UploadLimit`. -/
def UploadLimit : Nat := 10 * 1024 * 1024

/-- Go `strings.Contains(s, substr)`. -/
def Contains (s substr : String) : Bool :=
  s.data.tails.any (fun t => substr.data.isPrefixOf t)

/-- The mime type that `postIndex` derives from the Content-Type of the upload;
`none` is the branch that rejects the file. -/
def mimeOf (contentType : String) : Option String :=
  if Contains contentType "jpeg" then some "image/jpeg"
  else if Contains contentType "png" then some "image/png"
  else if Contains contentType "gif" then some "image/gif"
  else none

/-- Go `getExtension(mime)`. -/
def getExtension (mime : String) : String :=
  if mime = "image/jpeg" then "jpg"
  else if mime = "image/png" then "png"
  else if mime = "image/gif" then "gif"
  else ""

/-- A `db.Exec` on a table that is not part of the state (`posts`, `comments`):
the error of the statement and the state after it. -/
def dbExecOther (env : Env) (w : World) : Option Error × World :=
  (env.dbError w.dbCalls,
   { w with dbCalls := w.dbCalls + 1, trace := w.trace ++ [Event.DbExec] })

/-- Go `postIndex(w, r)`. -/
def postIndex (env : Env) (r : Request) (inp : PostIndexInput) (w : World) : Reply × World :=
  let (me, w1) := getSessionUser env r w
  if !isLogin me then (Reply.redirect "/login" none, w1)
  else if FormValue r "csrf_token" != getCSRFToken r then (Reply.status 422, w1)
  else
    match inp.upload with
    | none => (Reply.redirect "/" (some "画像が必須です"), w1)
    | some up =>
      match up.contentType with
      | [] => (Reply.panicked, w1)
      | contentType :: _ =>
        match mimeOf contentType with
        | none => (Reply.redirect "/" (some "投稿できる画像形式はjpgとpngとgifだけです"), w1)
        | some _ =>
          match inp.readError with
          | some _ => (Reply.silent, w1)
          | none =>
            if up.filedata.length > UploadLimit then
              (Reply.redirect "/" (some "ファイルサイズが大きすぎます"), w1)
            else
              match dbExecOther env w1 with
              | (some _, w2) => (Reply.silent, w2)
              | (none, w2) =>
                match inp.lastInsertIdError with
                | some _ => (Reply.silent, w2)
                | none =>
                  match inp.writeFileError with
                  | some _ => (Reply.silent, w2)
                  | none => (Reply.redirect ("/posts/" ++ Itoa inp.pid) none, w2)

/-- Go `postComment(w, r)`. -/
def postComment (env : Env) (r : Request) (w : World) : Reply × World :=
  let (me, w1) := getSessionUser env r w
  if !isLogin me then (Reply.redirect "/login" none, w1)
  else if FormValue r "csrf_token" != getCSRFToken r then (Reply.status 422, w1)
  else
    match Atoi (FormValue r "post_id") with
    | none => (Reply.silent, w1)
    | some postID =>
      match dbExecOther env w1 with
      | (some _, w2) => (Reply.silent, w2)
      | (none, w2) => (Reply.redirect ("/posts/" ++ Itoa postID) none, w2)

/-! ## The sequential step relation -/

/-- One operation of the program, run to completion. -/
inductive Step (env : Env) : World → World → Prop where
  | callUpdateIndexPosts (w : World) (res : String × Option Error) (w1 : World)
      (h : updateIndexPosts env w = some (res, w1)) : Step env w w1
  | callGetInitialize (w : World) : Step env w (getInitialize env w).2
  | callPostIndex (r : Request) (inp : PostIndexInput) (w : World) :
      Step env w (postIndex env r inp w).2
  | callPostComment (r : Request) (w : World) : Step env w (postComment env r w).2
  | callPostAdminBanned (r : Request) (w : World) : Step env w (postAdminBanned env r w).2
  | callGetSessionUser (r : Request) (w : World) : Step env w (getSessionUser env r w).2
  | cacheSet (key : String) (u : User) (w : World) :
      Step env w { w with userCache := cmapSet w.userCache key u }
  | cacheRemove (key : String) (w : World) :
      Step env w { w with userCache := cmapRemove w.userCache key }
  | cacheClear (w : World) : Step env w { w with userCache := cmapClear w.userCache }

/-- The states reachable from process start by finitely many operations. -/
def Reachable (env : Env) (users : List User) (w : World) : Prop :=
  Relation.ReflTransGen (Step env) (initWorld env users) w

/-! ## Specification vocabulary -/

/-- The outcome of the Recompute Function (feed query, `makePosts`, rendering)
when the feed query is the k-th statement sent to the database. -/
def recompute (env : Env) (k : Nat) : Except Error String :=
  match env.dbError k with
  | some e => Except.error e
  | none =>
    match makePosts env.mapRange (env.indexRows k) "" with
    | (_, some e) => Except.error e
    | (posts, none) => Except.ok (env.render posts)

/-- The events of one stale call of `updateIndexPosts` up to and including the
feed query. -/
def staleTracePrefix : List Event :=
  [Event.RLock, Event.RUnlock, Event.SfDo "indexPosts", Event.Lock, Event.Now,
   Event.DbSelectIndex true]

/-- The events of a stale call of `updateIndexPosts` whose recompute succeeds. -/
def staleTraceOk : List Event :=
  staleTracePrefix ++ [Event.Render, Event.Now, Event.Unlock, Event.RLock, Event.RUnlock]

/-- The events of a stale call of `updateIndexPosts` whose recompute fails. -/
def staleTraceErr : List Event :=
  staleTracePrefix ++ [Event.Unlock, Event.RLock, Event.RUnlock]

/-- The state a stale call of `updateIndexPosts` leaves behind when the recompute
succeeds with snapshot `s`. -/
def afterRecompute (env : Env) (w : World) (s : String) : World :=
  { w with indexContent := s,
           lastTriggered := env.now w.nowCalls,
           lastUpdated := env.now (w.nowCalls + 1),
           nowCalls := w.nowCalls + 2,
           dbCalls := w.dbCalls + 1,
           indexQueries := w.indexQueries + 1,
           trace := w.trace ++ staleTraceOk }

/-- The state a stale call of `updateIndexPosts` leaves behind when the recompute
fails. -/
def afterFailure (env : Env) (w : World) : World :=
  { w with lastTriggered := env.now w.nowCalls,
           nowCalls := w.nowCalls + 1,
           dbCalls := w.dbCalls + 1,
           indexQueries := w.indexQueries + 1,
           trace := w.trace ++ staleTraceErr }

/-- Two states agree on the feed slot, its mutex, and the clock and recompute
counters. -/
def sameSlot (w w1 : World) : Prop :=
  w1.indexContent = w.indexContent ∧ w1.lastUpdated = w.lastUpdated ∧
  w1.lastTriggered = w.lastTriggered ∧ w1.writer = w.writer ∧ w1.readers = w.readers ∧
  w1.nowCalls = w.nowCalls ∧ w1.indexQueries = w.indexQueries

/-- The events of the closure passed to `sf.Do` when the recompute succeeds. -/
def closureTraceOk : List Event :=
  [Event.Lock, Event.Now, Event.DbSelectIndex true, Event.Render, Event.Now, Event.Unlock]

/-- The events of the closure passed to `sf.Do` when the feed query fails. -/
def closureTraceErr : List Event :=
  [Event.Lock, Event.Now, Event.DbSelectIndex true, Event.Unlock]

/-! ## Example data -/

/-- An administrator account. -/
def adminUser : User :=
  { ID := 1, AccountName := "admin", Passhash := "x", Authority := 1, DelFlg := 0, CreatedAt := 5 }

/-- An ordinary account with id 7. -/
def user7 : User :=
  { ID := 7, AccountName := "seven", Passhash := "y", Authority := 0, DelFlg := 0, CreatedAt := 6 }

/-- A row without a comment. -/
def nullComment : NullComment :=
  { ID := { Int64 := 0, Valid := false }, PostID := { Int64 := 0, Valid := false },
    UserID := { Int64 := 0, Valid := false }, Comment := { String := "", Valid := false },
    CreatedAt := { Time := 0, Valid := false },
    User := { ID := { Int64 := 0, Valid := false }, AccountName := { String := "", Valid := false },
              Authority := { Int64 := 0, Valid := false }, DelFlg := { Int64 := 0, Valid := false },
              CreatedAt := { Time := 0, Valid := false } } }

/-- A feed row: post 3 by user 7. -/
def post3 : Post :=
  { ID := 3, UserID := 7, Imgdata := [], Body := "hello", Mime := "image/png", CreatedAt := 9,
    CommentCount := 1, RN := 1, Comment := nullComment, Comments := [], User := user7,
    CSRFToken := "" }

/-- An environment in which the clock advances by one at every reading, the
database answers every statement, and the feed query yields one row. -/
def okEnv : Env :=
  { now := fun k => (k : Int) + 100,
    dbError := fun _ => none,
    indexRows := fun _ => [post3],
    render := fun posts => if posts.isEmpty then "no posts" else "some posts",
    mapRange := id,
    sqlIdEq := fun id s => Atoi s == some id }

/-- As `okEnv`, with a database that fails every statement. -/
def downEnv : Env :=
  { okEnv with dbError := fun _ => some { msg := "connection refused" } }

/-- As `okEnv`, with a database that fails its first statement only. -/
def flakyEnv : Env :=
  { okEnv with dbError := fun k => if k = 0 then some { msg := "boom" } else none }

/-- The state right after process start, with two rows in `users`. -/
def startWorld : World := initWorld okEnv [adminUser, user7]

/-- The state after process start and one successful `updateIndexPosts`. -/
def servedWorld : World :=
  match updateIndexPosts okEnv startWorld with
  | some (_, w) => w
  | none => startWorld

/-- A request carrying the session of user 7. -/
def requestOf7 : Request :=
  { session := { user_id := some 7, csrf_token := some "tok7" }, form := [],
    parseFormError := none }

/-- The administrator's ban request naming user 7 as "07". -/
def banRequest : Request :=
  { session := { user_id := some 1, csrf_token := some "tok1" },
    form := [("csrf_token", ["tok1"]), ("uid[]", ["07"])],
    parseFormError := none }

/-- The start state after user 7 has been seen once, so that it is cached. -/
def cachedWorld : World := (getSessionUser okEnv requestOf7 startWorld).2

/-! ## makePosts: specification vocabulary and example rows -/

/-- Every element's `CreatedAt` is not earlier than that of the element that
follows it. -/
def descending : List Post → Bool
  | [] => true
  | [_] => true
  | a :: b :: rest => decide (b.CreatedAt ≤ a.CreatedAt) && descending (b :: rest)

/-- The first input row carrying post id `id`. -/
def firstRow (results : List Post) (id : Int) : Option Post :=
  results.find? (fun q => q.ID == id)

/-- The comment list described for post `id`: in input order, one
`Comment{Comment, AuthorName}` for every row with that id whose `Comment.ID` is valid. -/
def describedComments (results : List Post) (id : Int) : List Comment :=
  (results.filter (fun r => r.ID == id && r.Comment.ID.Valid)).map
    (fun r => { Comment := r.Comment.Comment.String,
                AuthorName := r.Comment.User.AccountName.String })

/-- A joined comment row: comment `cid` with text `text` written by `author`. -/
def commentRow (cid : Int) (text author : String) : NullComment :=
  { nullComment with
      ID := { Int64 := cid, Valid := true },
      Comment := { String := text, Valid := true },
      User := { nullComment.User with AccountName := { String := author, Valid := true } } }

/-- Two result rows of post 3, one per comment, as the feed query yields them. -/
def commentedRows : List Post :=
  [{ post3 with Comment := commentRow 11 "nice" "admin" },
   { post3 with Comment := commentRow 12 "thanks" "seven", RN := 2 }]

/-- A post created after `post3`. -/
def laterPost : Post := { post3 with ID := 4, Body := "later", CreatedAt := 20 }

/-- Three result rows: two of post 3 and, last, one of the later post 4. -/
def feedRows : List Post := commentedRows ++ [laterPost]

/-- A post created 2^62 + 1 nanoseconds before the Unix epoch (in the year 1823). -/
def oldPost : Post := { post3 with ID := 1, CreatedAt := - 2 ^ 62 - 1 }

/-- A post created 2^62 nanoseconds after the Unix epoch (in the year 2116). -/
def newPost : Post := { post3 with ID := 2, CreatedAt := 2 ^ 62 }

/-- A comment request by user 7 on post 3. -/
def commentRequest : Request :=
  { session := { user_id := some 7, csrf_token := some "tok7" },
    form := [("csrf_token", ["tok7"]), ("post_id", ["3"]), ("comment", ["nice"])],
    parseFormError := none }

/-- An upload request by user 7: a small PNG that is stored as post 4. -/
def uploadInput : PostIndexInput :=
  { upload := some { contentType := ["image/png"], filedata := [137, 80, 78, 71] },
    readError := none, lastInsertIdError := none, pid := 4, writeFileError := none }

/-- The state after a served feed, a flush, a new post with a comment, and a ban. -/
def busyWorld : World :=
  (postAdminBanned okEnv banRequest
    (postComment okEnv commentRequest
      (postIndex okEnv commentRequest uploadInput
        (getInitialize okEnv servedWorld).2).2).2).2

/-! ## Behaviour of `updateIndexPosts`, path by path -/

theorem makePosts_err (f : List Post → List Post) (rs : List Post) (tok : String) :
    (makePosts f rs tok).2 = none := rfl

theorem recompute_ok_iff (env : Env) (k : Nat) (s : String) :
    recompute env k = Except.ok s ↔
      env.dbError k = none ∧ s = env.render (makePosts env.mapRange (env.indexRows k) "").1 := by
  unfold recompute
  cases h : env.dbError k with
  | some e => simp
  | none =>
    simp only [makePosts, true_and]
    constructor
    · intro h1; injection h1 with h1; exact h1.symm
    · intro h1; rw [h1]

theorem recompute_error_iff (env : Env) (k : Nat) (e : Error) :
    recompute env k = Except.error e ↔ env.dbError k = some e := by
  unfold recompute
  cases h : env.dbError k with
  | some e1 =>
    constructor
    · intro h1; injection h1 with h1; rw [h1]
    · intro h1; injection h1 with h1; rw [h1]
  | none => simp [makePosts]

/-- Fresh path: the content is returned and only the two read-lock events are added. -/
theorem updateIndexPosts_fresh (env : Env) (w : World) (hw : w.writer = false)
    (hf : fresh w) :
    updateIndexPosts env w =
      some ((w.indexContent, none),
        { w with trace := w.trace ++ [Event.RLock, Event.RUnlock] }) := by
  unfold fresh at hf
  simp [updateIndexPosts, RLock, RUnlock, After, hw, hf]

/-- Stale path, recompute succeeds. -/
theorem updateIndexPosts_stale_ok (env : Env) (w : World) (s : String) (hu : unlocked w)
    (hs : ¬ fresh w) (hr : recompute env w.dbCalls = Except.ok s) :
    updateIndexPosts env w = some ((s, none), afterRecompute env w s) := by
  obtain ⟨hw, hrd⟩ := hu
  obtain ⟨hdb, hs2⟩ := (recompute_ok_iff env w.dbCalls s).1 hr
  unfold fresh at hs
  subst hs2
  simp [updateIndexPosts, RLock, RUnlock, After, hw, hrd, hs, sfDo, indexPostsClosure, Lock,
    Unlock, timeNow, indexPostsBody, dbSelectIndex, hdb, makePosts, staleTraceOk,
    staleTracePrefix, afterRecompute]

/-- Stale path, recompute fails. -/
theorem updateIndexPosts_stale_err (env : Env) (w : World) (e : Error) (hu : unlocked w)
    (hs : ¬ fresh w) (hr : recompute env w.dbCalls = Except.error e) :
    updateIndexPosts env w = some (("", some e), afterFailure env w) := by
  obtain ⟨hw, hrd⟩ := hu
  have hdb := (recompute_error_iff env w.dbCalls e).1 hr
  unfold fresh at hs
  simp [updateIndexPosts, RLock, RUnlock, After, hw, hrd, hs, sfDo, indexPostsClosure, Lock,
    Unlock, timeNow, indexPostsBody, dbSelectIndex, hdb, staleTraceErr, staleTracePrefix,
    afterFailure]

/-- A stale call always reaches the Recompute Function, whatever its outcome. -/
theorem updateIndexPosts_stale_runs (env : Env) (w : World) (hu : unlocked w)
    (hs : ¬ fresh w) :
    ∃ (r : String × Option Error) (w1 : World),
      updateIndexPosts env w = some (r, w1) ∧ w1.indexQueries = w.indexQueries + 1 := by
  cases hr : recompute env w.dbCalls with
  | error e => exact ⟨_, _, updateIndexPosts_stale_err env w e hu hs hr, rfl⟩
  | ok s => exact ⟨_, _, updateIndexPosts_stale_ok env w s hu hs hr, rfl⟩

theorem sameSlot_refl (w : World) : sameSlot w w := ⟨rfl, rfl, rfl, rfl, rfl, rfl, rfl⟩

theorem sameSlot_trans {a b c : World} (h1 : sameSlot a b) (h2 : sameSlot b c) :
    sameSlot a c := by
  obtain ⟨p1, p2, p3, p4, p5, p6, p7⟩ := h1
  obtain ⟨q1, q2, q3, q4, q5, q6, q7⟩ := h2
  exact ⟨q1.trans p1, q2.trans p2, q3.trans p3, q4.trans p4, q5.trans p5, q6.trans p6,
    q7.trans p7⟩

theorem dbExecUsers_sameSlot (env : Env) (f : List User → List User) (w : World) :
    sameSlot w (dbExecUsers env f w) := by
  unfold dbExecUsers
  cases env.dbError w.dbCalls <;> exact ⟨rfl, rfl, rfl, rfl, rfl, rfl, rfl⟩

theorem dbInitialize_sameSlot (env : Env) (w : World) : sameSlot w (dbInitialize env w) := by
  unfold dbInitialize
  exact sameSlot_trans (dbExecUsers_sameSlot env _ w)
    (sameSlot_trans (dbExecUsers_sameSlot env _ _)
      (sameSlot_trans (dbExecUsers_sameSlot env _ _)
        (sameSlot_trans (dbExecUsers_sameSlot env _ _) (dbExecUsers_sameSlot env _ _))))

theorem getInitialize_sameSlot (env : Env) (w : World) :
    sameSlot w (getInitialize env w).2 := by
  have h := dbInitialize_sameSlot env w
  unfold getInitialize
  exact h

/-- The closure passed to `sf.Do`, run with the mutex free. -/
theorem indexPostsClosure_run (env : Env) (w : World) (hu : unlocked w) :
    (∃ w1 : World, indexPostsClosure env w = some (none, w1) ∧ unlocked w1 ∧
        w1.lastTriggered = env.now w.nowCalls ∧ w1.lastUpdated = env.now (w.nowCalls + 1) ∧
        w1.trace = w.trace ++ closureTraceOk) ∨
    (∃ (e : Error) (w1 : World), indexPostsClosure env w = some (some e, w1) ∧ unlocked w1 ∧
        w1.lastTriggered = env.now w.nowCalls ∧ w1.lastUpdated = w.lastUpdated ∧
        w1.indexContent = w.indexContent ∧ w1.trace = w.trace ++ closureTraceErr) := by
  obtain ⟨hw, hrd⟩ := hu
  cases hdb : env.dbError w.dbCalls with
  | none =>
    left
    simp [indexPostsClosure, Lock, Unlock, timeNow, indexPostsBody, dbSelectIndex, hdb,
      makePosts, hw, hrd, unlocked, closureTraceOk]
  | some e =>
    right
    refine ⟨e, { w with lastTriggered := env.now w.nowCalls, nowCalls := w.nowCalls + 1,
                        dbCalls := w.dbCalls + 1, indexQueries := w.indexQueries + 1,
                        trace := w.trace ++ closureTraceErr }, ?_, ⟨hw, hrd⟩, rfl, rfl, rfl, rfl⟩
    simp [indexPostsClosure, Lock, Unlock, timeNow, indexPostsBody, dbSelectIndex, hdb,
      hw, hrd, closureTraceErr]

/-! ## The feed cache slot: claims -/

/-- C1 (freshness monotonicity, sequential model). From a stale slot with the
mutex free, if the Recompute Function succeeds with snapshot `s` and the clock
reading taken at completion is strictly later than the one taken at trigger, then
`updateIndexPosts` returns `(s, nil)` and leaves the slot fresh; an immediately
following call returns `(s, nil)` again and the Recompute Function has run exactly
once in total. -/
theorem freshness_monotonicity (env : Env) (w : World) (s : String)
    (hu : unlocked w) (hstale : ¬ fresh w)
    (hr : recompute env w.dbCalls = Except.ok s)
    (hclock : env.now w.nowCalls < env.now (w.nowCalls + 1)) :
    ∃ w1 w2 : World,
      updateIndexPosts env w = some ((s, none), w1) ∧
      fresh w1 ∧
      w1.indexQueries = w.indexQueries + 1 ∧
      updateIndexPosts env w1 = some ((s, none), w2) ∧
      w2.indexQueries = w.indexQueries + 1 := by
  have h1 := updateIndexPosts_stale_ok env w s hu hstale hr
  have hf : fresh (afterRecompute env w s) := hclock
  have h2 := updateIndexPosts_fresh env (afterRecompute env w s) hu.1 hf
  exact ⟨_, _, h1, hf, rfl, h2, rfl⟩

/-- C1 at the start state of `okEnv`. -/
theorem freshness_monotonicity_witness :
    unlocked startWorld ∧ ¬ fresh startWorld ∧
    recompute okEnv startWorld.dbCalls = Except.ok "some posts" ∧
    okEnv.now startWorld.nowCalls < okEnv.now (startWorld.nowCalls + 1) ∧
    ∃ w1 w2 : World,
      updateIndexPosts okEnv startWorld = some (("some posts", none), w1) ∧
      fresh w1 ∧
      w1.indexQueries = startWorld.indexQueries + 1 ∧
      updateIndexPosts okEnv w1 = some (("some posts", none), w2) ∧
      w2.indexQueries = startWorld.indexQueries + 1 :=
  ⟨by decide, by decide, rfl, by decide,
   freshness_monotonicity okEnv startWorld "some posts" (by decide) (by decide) rfl (by decide)⟩

/-- C2 (fresh read). When `lastUpdated` is strictly after `lastTriggered` (and no
writer holds the mutex), `updateIndexPosts` returns `(indexContent, nil)`; the
coalescing group and the Recompute Function are not invoked (the only events are
the read lock and its release, no statement reaches the database) and
`indexContent`, `lastUpdated`, `lastTriggered` are unchanged. -/
theorem fresh_read (env : Env) (w : World) (hw : w.writer = false) (hf : fresh w) :
    ∃ w1 : World,
      updateIndexPosts env w = some ((w.indexContent, none), w1) ∧
      w1.trace = w.trace ++ [Event.RLock, Event.RUnlock] ∧
      w1.indexQueries = w.indexQueries ∧ w1.dbCalls = w.dbCalls ∧
      w1.indexContent = w.indexContent ∧ w1.lastUpdated = w.lastUpdated ∧
      w1.lastTriggered = w.lastTriggered ∧ w1.readers = w.readers ∧ w1.writer = w.writer :=
  ⟨_, updateIndexPosts_fresh env w hw hf, rfl, rfl, rfl, rfl, rfl, rfl, rfl, rfl⟩

/-- C2 at the state reached after one successful call. -/
theorem fresh_read_witness :
    servedWorld.writer = false ∧ fresh servedWorld ∧
    ∃ w1 : World,
      updateIndexPosts okEnv servedWorld = some ((servedWorld.indexContent, none), w1) ∧
      w1.trace = servedWorld.trace ++ [Event.RLock, Event.RUnlock] ∧
      w1.indexQueries = servedWorld.indexQueries ∧ w1.dbCalls = servedWorld.dbCalls ∧
      w1.indexContent = servedWorld.indexContent ∧ w1.lastUpdated = servedWorld.lastUpdated ∧
      w1.lastTriggered = servedWorld.lastTriggered ∧ w1.readers = servedWorld.readers ∧
      w1.writer = servedWorld.writer :=
  ⟨by decide, by decide, fresh_read okEnv servedWorld (by decide) (by decide)⟩

/-- C3 (failure propagation). From a stale slot with the mutex free, if the
Recompute Function fails with `e`, `updateIndexPosts` returns `("", e)` and
`indexContent` and `lastUpdated` are as before the call. -/
theorem failure_propagation (env : Env) (w : World) (e : Error)
    (hu : unlocked w) (hstale : ¬ fresh w)
    (hr : recompute env w.dbCalls = Except.error e) :
    ∃ w1 : World,
      updateIndexPosts env w = some (("", some e), w1) ∧
      w1.indexContent = w.indexContent ∧ w1.lastUpdated = w.lastUpdated :=
  ⟨_, updateIndexPosts_stale_err env w e hu hstale hr, rfl, rfl⟩

/-- C3 at the start state with the database down. -/
theorem failure_propagation_witness :
    unlocked startWorld ∧ ¬ fresh startWorld ∧
    recompute downEnv startWorld.dbCalls = Except.error { msg := "connection refused" } ∧
    ∃ w1 : World,
      updateIndexPosts downEnv startWorld =
        some (("", some { msg := "connection refused" }), w1) ∧
      w1.indexContent = startWorld.indexContent ∧ w1.lastUpdated = startWorld.lastUpdated :=
  ⟨by decide, by decide, rfl,
   failure_propagation downEnv startWorld { msg := "connection refused" }
     (by decide) (by decide) rfl⟩

/-- C7, as stated, fails: after one successful recompute the slot is fresh; after
`getInitialize` it still holds the old non-empty content, is still fresh, and the
next `updateIndexPosts` returns that content without running the feed query. -/
theorem getInitialize_resets_slot_counterexample :
    fresh servedWorld ∧
    (getInitialize okEnv servedWorld).2.indexContent = "some posts" ∧
    (getInitialize okEnv servedWorld).2.indexContent ≠ "" ∧
    fresh (getInitialize okEnv servedWorld).2 ∧
    (updateIndexPosts okEnv (getInitialize okEnv servedWorld).2).map
        (fun r => (r.1, r.2.indexQueries)) =
      some (("some posts", none), servedWorld.indexQueries) := by
  decide

/-- C7, amended. `getInitialize` answers 200, empties `userCache` and leaves the feed
slot as it was: `indexContent`, `lastUpdated`, `lastTriggered` and the mutex are
unchanged and the Recompute Function is not run. Hence a fresh slot stays fresh,
and the next `updateIndexPosts` returns the content cached before the flush
without invoking the Recompute Function. -/
theorem getInitialize_keeps_slot (env : Env) (w : World) :
    (getInitialize env w).1.status = 200 ∧
    (getInitialize env w).2.userCache = [] ∧
    (getInitialize env w).2.indexContent = w.indexContent ∧
    (getInitialize env w).2.lastUpdated = w.lastUpdated ∧
    (getInitialize env w).2.lastTriggered = w.lastTriggered ∧
    (getInitialize env w).2.indexQueries = w.indexQueries ∧
    (w.writer = false → fresh w →
      fresh (getInitialize env w).2 ∧
      ∃ w2 : World,
        updateIndexPosts env (getInitialize env w).2 = some ((w.indexContent, none), w2) ∧
        w2.indexQueries = w.indexQueries) := by
  obtain ⟨h1, h2, h3, h4, h5, h6, h7⟩ := getInitialize_sameSlot env w
  refine ⟨rfl, rfl, h1, h2, h3, h7, ?_⟩
  intro hw hf
  have hf1 : fresh (getInitialize env w).2 := by
    unfold fresh at hf ⊢
    rw [h2, h3]
    exact hf
  have hrun := updateIndexPosts_fresh env (getInitialize env w).2 (h4.trans hw) hf1
  rw [h1] at hrun
  exact ⟨hf1, _, hrun, h7⟩

/-- C7 amended, at the state reached after one successful call. -/
theorem getInitialize_keeps_slot_witness :
    servedWorld.writer = false ∧ fresh servedWorld ∧
    fresh (getInitialize okEnv servedWorld).2 ∧
    ∃ w2 : World,
      updateIndexPosts okEnv (getInitialize okEnv servedWorld).2 =
        some ((servedWorld.indexContent, none), w2) ∧
      w2.indexQueries = servedWorld.indexQueries :=
  ⟨by decide, by decide,
   (getInitialize_keeps_slot okEnv servedWorld).2.2.2.2.2.2 (by decide) (by decide)⟩

/-- C8 (the initial slot is stale). With a non-decreasing clock, the package-level
initialisation yields empty content and a slot that is not fresh (the mutex is
free, the Recompute Function has not run); the first `updateIndexPosts` call
returns and has run the Recompute Function once. -/
theorem initial_slot_stale (env : Env) (users : List User) (hmono : Monotone env.now) :
    (initWorld env users).indexContent = "" ∧
    After (initWorld env users).lastUpdated (initWorld env users).lastTriggered = false ∧
    ¬ fresh (initWorld env users) ∧
    (initWorld env users).indexQueries = 0 ∧
    ∃ (r : String × Option Error) (w1 : World),
      updateIndexPosts env (initWorld env users) = some (r, w1) ∧ w1.indexQueries = 1 := by
  have hle : env.now 0 ≤ env.now 1 := hmono (Nat.zero_le 1)
  have hstale : ¬ fresh (initWorld env users) := by
    show ¬ (env.now (0 + 1) < env.now 0)
    exact not_lt.mpr hle
  have hu : unlocked (initWorld env users) := ⟨rfl, rfl⟩
  obtain ⟨r, w1, hrun, hq⟩ := updateIndexPosts_stale_runs env (initWorld env users) hu hstale
  refine ⟨rfl, ?_, hstale, rfl, r, w1, hrun, hq⟩
  show decide (env.now (0 + 1) < env.now 0) = false
  exact decide_eq_false (not_lt.mpr hle)

/-- C8 for the clock of `okEnv`. -/
theorem initial_slot_stale_witness :
    Monotone okEnv.now ∧
    (initWorld okEnv []).indexContent = "" ∧
    After (initWorld okEnv []).lastUpdated (initWorld okEnv []).lastTriggered = false ∧
    ¬ fresh (initWorld okEnv []) ∧
    (initWorld okEnv []).indexQueries = 0 ∧
    ∃ (r : String × Option Error) (w1 : World),
      updateIndexPosts okEnv (initWorld okEnv []) = some (r, w1) ∧ w1.indexQueries = 1 :=
  have hm : Monotone okEnv.now := by
    intro a b hab
    show (a : Int) + 100 ≤ (b : Int) + 100
    have : (a : Int) ≤ (b : Int) := Int.ofNat_le.mpr hab
    omega
  ⟨hm, initial_slot_stale okEnv [] hm⟩

/-- C9 (retry on the next request after a failure). From a stale slot with the
mutex free whose `lastUpdated` is not later than the next clock reading (which
holds when the stored timestamps are not later than the current clock and the
clock is non-decreasing), a call whose Recompute Function fails with `e` returns
`("", e)` and leaves the slot stale, and the next call runs the Recompute
Function again. -/
theorem retry_after_failure (env : Env) (w : World) (e : Error)
    (hu : unlocked w) (hstale : ¬ fresh w)
    (hclock : w.lastUpdated ≤ env.now w.nowCalls)
    (hr : recompute env w.dbCalls = Except.error e) :
    ∃ w1 : World,
      updateIndexPosts env w = some (("", some e), w1) ∧
      ¬ fresh w1 ∧
      ∃ (r : String × Option Error) (w2 : World),
        updateIndexPosts env w1 = some (r, w2) ∧ w2.indexQueries = w1.indexQueries + 1 := by
  have h1 := updateIndexPosts_stale_err env w e hu hstale hr
  have hs1 : ¬ fresh (afterFailure env w) := by
    show ¬ (env.now w.nowCalls < w.lastUpdated)
    exact not_lt.mpr hclock
  have hu1 : unlocked (afterFailure env w) := hu
  exact ⟨_, h1, hs1, updateIndexPosts_stale_runs env (afterFailure env w) hu1 hs1⟩

/-- C9 at the start state with the database down. -/
theorem retry_after_failure_witness :
    unlocked startWorld ∧ ¬ fresh startWorld ∧
    startWorld.lastUpdated ≤ downEnv.now startWorld.nowCalls ∧
    recompute downEnv startWorld.dbCalls = Except.error { msg := "connection refused" } ∧
    ∃ w1 : World,
      updateIndexPosts downEnv startWorld =
        some (("", some { msg := "connection refused" }), w1) ∧
      ¬ fresh w1 ∧
      ∃ (r : String × Option Error) (w2 : World),
        updateIndexPosts downEnv w1 = some (r, w2) ∧ w2.indexQueries = w1.indexQueries + 1 :=
  ⟨by decide, by decide, by decide, rfl,
   retry_after_failure downEnv startWorld { msg := "connection refused" }
     (by decide) (by decide) (by decide) rfl⟩

/-- C10, as stated, fails: in the run of the recompute closure from the start state
the feed query is issued while `indexPostsMutex` is exclusively held
(`DbSelectIndex true`), and the mutex is locked once and unlocked once, after the
content has been rendered and `lastUpdated` stamped. -/
theorem lock_released_before_recompute_counterexample :
    (indexPostsClosure okEnv startWorld).map
        (fun r => (r.1, r.2.trace.drop startWorld.trace.length)) =
      some (none, [Event.Lock, Event.Now, Event.DbSelectIndex true, Event.Render, Event.Now,
                   Event.Unlock]) := by
  decide

/-- C10, amended. Run with the mutex free, the recompute closure locks
`indexPostsMutex` once, before `lastTriggered` is set, holds it while the feed query
runs (`DbSelectIndex true`) and while `indexContent` and `lastUpdated` are written,
and unlocks it once, when the closure returns, whether the recompute succeeded
(first trace) or the query failed (second trace). -/
theorem lock_held_across_recompute (env : Env) (w : World) (hu : unlocked w) :
    (∃ w1 : World, indexPostsClosure env w = some (none, w1) ∧ unlocked w1 ∧
        w1.lastTriggered = env.now w.nowCalls ∧
        w1.trace = w.trace ++ [Event.Lock, Event.Now, Event.DbSelectIndex true, Event.Render,
                               Event.Now, Event.Unlock]) ∨
    (∃ (e : Error) (w1 : World), indexPostsClosure env w = some (some e, w1) ∧ unlocked w1 ∧
        w1.lastTriggered = env.now w.nowCalls ∧
        w1.trace = w.trace ++ [Event.Lock, Event.Now, Event.DbSelectIndex true,
                               Event.Unlock]) := by
  rcases indexPostsClosure_run env w hu with ⟨w1, h1, h2, h3, _, h5⟩ | ⟨e, w1, h1, h2, h3, _, _, h6⟩
  · exact Or.inl ⟨w1, h1, h2, h3, h5⟩
  · exact Or.inr ⟨e, w1, h1, h2, h3, h6⟩

/-- C10 amended, at the start state. -/
theorem lock_held_across_recompute_witness :
    unlocked startWorld ∧
    ((∃ w1 : World, indexPostsClosure okEnv startWorld = some (none, w1) ∧ unlocked w1 ∧
        w1.lastTriggered = okEnv.now startWorld.nowCalls ∧
        w1.trace = startWorld.trace ++ [Event.Lock, Event.Now, Event.DbSelectIndex true,
                                        Event.Render, Event.Now, Event.Unlock]) ∨
     (∃ (e : Error) (w1 : World), indexPostsClosure okEnv startWorld = some (some e, w1) ∧
        unlocked w1 ∧ w1.lastTriggered = okEnv.now startWorld.nowCalls ∧
        w1.trace = startWorld.trace ++ [Event.Lock, Event.Now, Event.DbSelectIndex true,
                                        Event.Unlock])) :=
  ⟨by decide, lock_held_across_recompute okEnv startWorld (by decide)⟩

/-! ## The user cache: lemmas -/

theorem cmapGet_cmapRemove_self (m : List (String × User)) (key : String) :
    cmapGet (cmapRemove m key) key = none := by
  induction m with
  | nil => rfl
  | cons kv rest ih =>
    obtain ⟨k, v⟩ := kv
    by_cases hk : k = key
    · simpa [cmapRemove, hk] using ih
    · simpa [cmapRemove, hk, cmapGet] using ih

theorem cmapGet_cmapSet_self (m : List (String × User)) (key : String) (v : User) :
    cmapGet (cmapSet m key v) key = some v := by
  simp [cmapSet, cmapGet]

theorem dbGetUser_ok_id (env : Env) (uid : Int) (w : World) (u : User)
    (h : (dbGetUser env uid w).1 = Except.ok u) : u.ID = uid := by
  unfold dbGetUser at h
  cases hdb : env.dbError w.dbCalls with
  | some e => simp [hdb] at h
  | none =>
    cases hf : w.users.find? (fun u => u.ID == uid) with
    | none => simp [hdb, hf] at h
    | some u1 =>
      simp [hdb, hf] at h
      have := List.find?_some hf
      subst h
      simpa using this

theorem cmapGet_cmapRemove_none (m : List (String × User)) (key other : String)
    (h : cmapGet m key = none) : cmapGet (cmapRemove m other) key = none := by
  induction m with
  | nil => rfl
  | cons kv rest ih =>
    obtain ⟨k, v⟩ := kv
    by_cases hk : k = key
    · simp [cmapGet, hk] at h
    · have hrest : cmapGet rest key = none := by simpa [cmapGet, hk] using h
      by_cases ho : k = other
      · simpa [cmapRemove, ho] using ih hrest
      · simpa [cmapRemove, ho, cmapGet, hk] using ih hrest

theorem banLoop_keeps_absent (env : Env) (ids : List String) (w : World) (key : String)
    (h : cmapGet w.userCache key = none) :
    cmapGet (banLoop env ids w).userCache key = none := by
  induction ids generalizing w with
  | nil => exact h
  | cons id rest ih =>
    unfold banLoop
    apply ih
    have hc : (dbExecUsers env
        (fun us => us.map (fun u => if env.sqlIdEq u.ID id then { u with DelFlg := 1 } else u))
        w).userCache = w.userCache := by
      unfold dbExecUsers
      cases env.dbError w.dbCalls <;> rfl
    simp only [hc]
    exact cmapGet_cmapRemove_none _ _ _ h

/-- The ban loop removes exactly the keys it is given: every form value of
`uid[]` is absent from `userCache` afterwards. -/
theorem banLoop_removes_given_key (env : Env) (ids : List String) (w : World) (id : String)
    (h : id ∈ ids) : cmapGet (banLoop env ids w).userCache id = none := by
  induction ids generalizing w with
  | nil => cases h
  | cons x rest ih =>
    unfold banLoop
    rcases List.mem_cons.1 h with hx | hx
    · subst hx
      apply banLoop_keeps_absent
      exact cmapGet_cmapRemove_self _ _
    · exact ih _ hx

/-! ## The user cache: claims -/

/-- C5 (entity cache hit/miss in `getSessionUser`). With user id `uid` in the
session, an empty `userCache` and an authoritative load that succeeds with record
`u`: the call returns `u`, runs the single-user query exactly once and leaves `u`
in `userCache` under `strconv.Itoa(uid)`; a second call with the same session
returns `u` and changes nothing, so it runs the query zero times. -/
theorem getSessionUser_miss_then_hit (env : Env) (r : Request) (w : World) (uid : Int)
    (u : User) (hsess : r.session.user_id = some uid) (hempty : w.userCache = [])
    (hload : (dbGetUser env uid w).1 = Except.ok u) :
    (getSessionUser env r w).1 = u ∧
    (getSessionUser env r w).2.userQueries = w.userQueries + 1 ∧
    cmapGet (getSessionUser env r w).2.userCache (Itoa uid) = some u ∧
    getSessionUser env r (getSessionUser env r w).2 = (u, (getSessionUser env r w).2) ∧
    (getSessionUser env r (getSessionUser env r w).2).2.userQueries = w.userQueries + 1 := by
  have hid := dbGetUser_ok_id env uid w u hload
  have h1 : getSessionUser env r w =
      (u, { (dbGetUser env uid w).2 with
              userCache := cmapSet (dbGetUser env uid w).2.userCache (Itoa uid) u }) := by
    unfold getSessionUser
    simp only [hsess, hempty, cmapGet]
    revert hload
    cases hq : dbGetUser env uid w with
    | mk res w1 =>
      intro hload
      simp only at hload
      subst hload
      simp [hid]
  have h2 : (dbGetUser env uid w).2.userQueries = w.userQueries + 1 := by
    unfold dbGetUser
    cases env.dbError w.dbCalls with
    | some e => rfl
    | none =>
      simp only []
      split <;> rfl
  have h3 : getSessionUser env r (getSessionUser env r w).2 =
      (u, (getSessionUser env r w).2) := by
    rw [h1]
    unfold getSessionUser
    simp only [hsess, cmapGet_cmapSet_self]
  refine ⟨by rw [h1], by rw [h1]; exact h2, by rw [h1]; exact cmapGet_cmapSet_self _ _ _,
    h3, ?_⟩
  rw [h3, h1]
  exact h2

/-- C5 for user 7 at the start state. -/
theorem getSessionUser_miss_then_hit_witness :
    requestOf7.session.user_id = some 7 ∧ startWorld.userCache = [] ∧
    (dbGetUser okEnv 7 startWorld).1 = Except.ok user7 ∧
    (getSessionUser okEnv requestOf7 startWorld).1 = user7 ∧
    (getSessionUser okEnv requestOf7 startWorld).2.userQueries = startWorld.userQueries + 1 ∧
    cmapGet (getSessionUser okEnv requestOf7 startWorld).2.userCache (Itoa 7) = some user7 ∧
    getSessionUser okEnv requestOf7 (getSessionUser okEnv requestOf7 startWorld).2 =
      (user7, (getSessionUser okEnv requestOf7 startWorld).2) ∧
    (getSessionUser okEnv requestOf7 (getSessionUser okEnv requestOf7 startWorld).2).2.userQueries
      = startWorld.userQueries + 1 :=
  ⟨rfl, rfl, rfl, getSessionUser_miss_then_hit okEnv requestOf7 startWorld 7 user7 rfl rfl rfl⟩

/-- C6 at the form value "07": `strconv.Atoi("07")` is 7 and the UPDATE sets
`del_flg` of user 7, but the loop removes the key "07" while `getSessionUser` keeps
user 7 under `strconv.Itoa(7)` = "7". After the ban the cache still holds the old
record of user 7, and the next `getSessionUser` for 7 returns it (with `DelFlg` 0)
without running the single-user query. -/
theorem postAdminBanned_keeps_noncanonical_key :
    Atoi "07" = some 7 ∧ Itoa 7 = "7" ∧
    cmapGet cachedWorld.userCache (Itoa 7) = some user7 ∧
    (postAdminBanned okEnv banRequest cachedWorld).1 =
      { status := 302, location := "/admin/banned" } ∧
    (postAdminBanned okEnv banRequest cachedWorld).2.users =
      [adminUser, { user7 with DelFlg := 1 }] ∧
    cmapGet (banLoop okEnv ["07"] cachedWorld).userCache (Itoa 7) = some user7 ∧
    cmapGet (postAdminBanned okEnv banRequest cachedWorld).2.userCache (Itoa 7) = some user7 ∧
    (getSessionUser okEnv requestOf7 (postAdminBanned okEnv banRequest cachedWorld).2).1 =
      user7 ∧
    (getSessionUser okEnv requestOf7 (postAdminBanned okEnv banRequest cachedWorld).2).2.userQueries
      = (postAdminBanned okEnv banRequest cachedWorld).2.userQueries := by
  decide

/-! ## makePosts: lemmas -/

theorem sortInsert_perm (cmp : Post → Post → Int) (x : Post) (l : List Post) :
    (sortInsert cmp x l).Perm (x :: l) := by
  induction l with
  | nil => exact List.Perm.refl _
  | cons y ys ih =>
    unfold sortInsert
    split
    · exact ((List.Perm.cons y ih).trans (List.Perm.swap x y ys))
    · exact List.Perm.refl _

theorem insertionSortAux_perm (cmp : Post → Post → Int) (pre l : List Post) :
    (insertionSortAux cmp pre l).Perm (pre ++ l) := by
  induction l generalizing pre with
  | nil =>
    unfold insertionSortAux
    simp
  | cons x rest ih =>
    unfold insertionSortAux
    refine (ih (sortInsert cmp x pre)).trans ?_
    refine ((sortInsert_perm cmp x pre).append_right rest).trans ?_
    exact List.perm_middle.symm

theorem SortFunc_perm (posts : List Post) (cmp : Post → Post → Int) :
    (SortFunc posts cmp).Perm posts := by
  simpa [SortFunc] using insertionSortAux_perm cmp [] posts

/-- The entries of the map built by the first loop: those already present, and
for every id not yet present the first row carrying it. -/
theorem mem_buildPostMap (acc rs : List Post) (p : Post) :
    p ∈ buildPostMap acc rs ↔
      p ∈ acc ∨ ((∀ q ∈ acc, q.ID ≠ p.ID) ∧ firstRow rs p.ID = some p) := by
  induction rs generalizing acc with
  | nil => simp [buildPostMap, firstRow]
  | cons r rest ih =>
    unfold buildPostMap
    by_cases hany : acc.any (fun q => q.ID == r.ID) = true
    · rw [if_pos hany, ih]
      obtain ⟨q0, hq0, hq0id⟩ := List.any_eq_true.1 hany
      have hq0id : q0.ID = r.ID := by simpa using hq0id
      by_cases hrp : r.ID = p.ID
      · constructor
        · rintro (h | ⟨h1, _⟩)
          · exact Or.inl h
          · exact absurd (hq0id.trans hrp) (h1 q0 hq0)
        · rintro (h | ⟨h1, _⟩)
          · exact Or.inl h
          · exact absurd (hq0id.trans hrp) (h1 q0 hq0)
      · simp [firstRow, List.find?_cons, hrp]
    · rw [if_neg hany, ih]
      have hnot : ∀ q ∈ acc, q.ID ≠ r.ID := by
        intro q hq hqr
        exact hany (List.any_eq_true.2 ⟨q, hq, by simpa using hqr⟩)
      by_cases hrp : r.ID = p.ID
      · have hfr : firstRow (r :: rest) p.ID = some r := by
          simp [firstRow, List.find?_cons, hrp]
        rw [hfr]
        constructor
        · rintro (h | ⟨h1, _⟩)
          · rcases List.mem_append.1 h with h | h
            · exact Or.inl h
            · have hpr : p = r := by simpa using h
              subst hpr
              exact Or.inr ⟨hnot, rfl⟩
          · exact absurd hrp (h1 r (by simp))
        · rintro (h | ⟨_, h2⟩)
          · exact Or.inl (List.mem_append.2 (Or.inl h))
          · have hpr : r = p := by simpa using h2
            subst hpr
            exact Or.inl (by simp)
      · have hfr : firstRow (r :: rest) p.ID = firstRow rest p.ID := by
          simp [firstRow, List.find?_cons, hrp]
        rw [hfr]
        constructor
        · rintro (h | ⟨h1, h2⟩)
          · rcases List.mem_append.1 h with h | h
            · exact Or.inl h
            · have hpr : p = r := by simpa using h
              exact absurd (by rw [hpr]) hrp
          · exact Or.inr ⟨fun q hq => h1 q (List.mem_append.2 (Or.inl hq)), h2⟩
        · rintro (h | ⟨h1, h2⟩)
          · exact Or.inl (List.mem_append.2 (Or.inl h))
          · refine Or.inr ⟨?_, h2⟩
            intro q hq
            rcases List.mem_append.1 hq with hq | hq
            · exact h1 q hq
            · have hqr : q = r := by simpa using hq
              rw [hqr]
              exact hrp

/-- The map built by the first loop holds no id twice. -/
theorem buildPostMap_nodup (acc rs : List Post) (h : (acc.map (fun p => p.ID)).Nodup) :
    ((buildPostMap acc rs).map (fun p => p.ID)).Nodup := by
  induction rs generalizing acc with
  | nil => exact h
  | cons r rest ih =>
    unfold buildPostMap
    by_cases hany : acc.any (fun q => q.ID == r.ID) = true
    · rw [if_pos hany]
      exact ih acc h
    · rw [if_neg hany]
      apply ih
      rw [List.map_append, List.nodup_append]
      refine ⟨h, by simp, ?_⟩
      intro a ha hb
      have har : a = r.ID := by simpa using hb
      obtain ⟨q, hq, hqa⟩ := List.mem_map.1 ha
      exact hany (List.any_eq_true.2 ⟨q, hq, by simpa [har] using hqa⟩)

theorem sortInsert_sorted (cmp : Post → Post → Int) (x : Post) (l : List Post)
    (hcmp : ∀ y ∈ l, (cmp x y < 0 ↔ y.CreatedAt < x.CreatedAt))
    (hl : l.Pairwise (fun a b => a.CreatedAt ≤ b.CreatedAt)) :
    (sortInsert cmp x l).Pairwise (fun a b => a.CreatedAt ≤ b.CreatedAt) := by
  induction l with
  | nil => simp [sortInsert]
  | cons y ys ih =>
    have hy := List.pairwise_cons.1 hl
    unfold sortInsert
    by_cases hc : cmp x y < 0
    · rw [if_pos hc]
      have hyx : y.CreatedAt < x.CreatedAt := (hcmp y (by simp)).1 hc
      refine List.pairwise_cons.2 ⟨?_, ih (fun z hz => hcmp z (List.mem_cons_of_mem _ hz)) hy.2⟩
      intro z hz
      rcases List.mem_cons.1 ((sortInsert_perm cmp x ys).subset hz) with hzx | hzy
      · rw [hzx]; exact le_of_lt hyx
      · exact hy.1 z hzy
    · rw [if_neg hc]
      have hxy : x.CreatedAt ≤ y.CreatedAt :=
        not_lt.1 (fun h => hc ((hcmp y (by simp)).2 h))
      refine List.pairwise_cons.2 ⟨?_, hl⟩
      intro z hz
      rcases List.mem_cons.1 hz with hzy | hzy
      · rw [hzy]; exact hxy
      · exact le_trans hxy (hy.1 z hzy)

theorem insertionSortAux_sorted (cmp : Post → Post → Int) (pre l : List Post)
    (hcmp : ∀ a ∈ pre ++ l, ∀ b ∈ pre ++ l, (cmp a b < 0 ↔ b.CreatedAt < a.CreatedAt))
    (hpre : pre.Pairwise (fun a b => a.CreatedAt ≤ b.CreatedAt)) :
    (insertionSortAux cmp pre l).Pairwise (fun a b => b.CreatedAt ≤ a.CreatedAt) := by
  induction l generalizing pre with
  | nil =>
    unfold insertionSortAux
    exact List.pairwise_reverse.2 hpre
  | cons x rest ih =>
    unfold insertionSortAux
    apply ih
    · intro a ha b hb
      have hsub : ∀ z, z ∈ sortInsert cmp x pre ++ rest → z ∈ pre ++ x :: rest := by
        intro z hz
        rcases List.mem_append.1 hz with hz | hz
        · rcases List.mem_cons.1 ((sortInsert_perm cmp x pre).subset hz) with h | h
          · rw [h]; simp
          · exact List.mem_append.2 (Or.inl h)
        · exact List.mem_append.2 (Or.inr (List.mem_cons_of_mem _ hz))
      exact hcmp a (hsub a ha) b (hsub b hb)
    · apply sortInsert_sorted cmp x pre _ hpre
      intro y hy
      exact hcmp x (by simp) y (List.mem_append.2 (Or.inl hy))

theorem descending_of_pairwise (l : List Post)
    (h : l.Pairwise (fun a b => b.CreatedAt ≤ a.CreatedAt)) : descending l = true := by
  induction l with
  | nil => rfl
  | cons a rest ih =>
    cases rest with
    | nil => rfl
    | cons b rest2 =>
      have ha := List.pairwise_cons.1 h
      unfold descending
      simp only [Bool.and_eq_true, decide_eq_true_eq]
      exact ⟨ha.1 b (by simp), ih ha.2⟩

theorem wrap64_of_range (x : Int) (h1 : - 2 ^ 63 ≤ x) (h2 : x < 2 ^ 63) : wrap64 x = x := by
  unfold wrap64
  rw [Int.emod_eq_of_lt (by omega) (by omega)]
  omega

/-- Without overflow the comparator orders by time. -/
theorem postCmp_neg_iff (a b : Post)
    (ha : - 2 ^ 63 ≤ a.CreatedAt ∧ a.CreatedAt < 2 ^ 63)
    (hb : - 2 ^ 63 ≤ b.CreatedAt ∧ b.CreatedAt < 2 ^ 63)
    (hab : - 2 ^ 63 ≤ b.CreatedAt - a.CreatedAt ∧ b.CreatedAt - a.CreatedAt < 2 ^ 63) :
    postCmp a b < 0 ↔ b.CreatedAt < a.CreatedAt := by
  unfold postCmp UnixNano
  rw [wrap64_of_range _ ha.1 ha.2, wrap64_of_range _ hb.1 hb.2, wrap64_of_range _ hab.1 hab.2]
  exact sub_neg

/-- The slice returned by `makePosts` is a rearrangement of the map entries with
the token set. -/
theorem makePosts_perm (f : List Post → List Post) (rs : List Post) (tok : String)
    (hperm : ∀ l, (f l).Perm l) :
    (makePosts f rs tok).1.Perm
      ((buildPostMap [] rs).map (fun p => { p with CSRFToken := tok })) := by
  unfold makePosts
  exact (SortFunc_perm _ _).trans ((hperm _).map _)

/-- The posts returned by `makePosts`: for every id, the first row carrying it,
with `CSRFToken` replaced. -/
theorem mem_makePosts (f : List Post → List Post) (rs : List Post) (tok : String)
    (hperm : ∀ l, (f l).Perm l) (p : Post) :
    p ∈ (makePosts f rs tok).1 ↔
      ∃ r, firstRow rs r.ID = some r ∧ p = { r with CSRFToken := tok } := by
  rw [(makePosts_perm f rs tok hperm).mem_iff, List.mem_map]
  constructor
  · rintro ⟨r, hr, hp⟩
    have := (mem_buildPostMap [] rs r).1 hr
    simp only [List.not_mem_nil, false_or] at this
    exact ⟨r, this.2, hp.symm⟩
  · rintro ⟨r, hr, hp⟩
    refine ⟨r, (mem_buildPostMap [] rs r).2 (Or.inr ⟨by simp, hr⟩), hp.symm⟩

/-- When all timestamps are `int64` nanosecond counts and no two of them are 2^63
nanoseconds or more apart, `makePosts` returns the posts newest first. -/
theorem makePosts_descending_of_close (f : List Post → List Post) (rs : List Post)
    (tok : String) (hperm : ∀ l, (f l).Perm l)
    (hrange : ∀ r ∈ rs, - 2 ^ 63 ≤ r.CreatedAt ∧ r.CreatedAt < 2 ^ 63)
    (hclose : ∀ a ∈ rs, ∀ b ∈ rs, a.CreatedAt - b.CreatedAt < 2 ^ 63) :
    descending (makePosts f rs tok).1 = true := by
  apply descending_of_pairwise
  have hrow : ∀ p, p ∈ (f (buildPostMap [] rs)).map (fun p => { p with CSRFToken := tok }) →
      ∃ r ∈ rs, p.CreatedAt = r.CreatedAt := by
    intro p hp
    obtain ⟨r, hr, hpr⟩ := List.mem_map.1 hp
    have hr1 := (hperm _).subset hr
    have hr2 := (mem_buildPostMap [] rs r).1 hr1
    simp only [List.not_mem_nil, false_or] at hr2
    exact ⟨r, List.mem_of_find?_eq_some hr2.2, by rw [← hpr]⟩
  unfold makePosts SortFunc
  apply insertionSortAux_sorted
  · intro a ha b hb
    obtain ⟨ra, hra, hae⟩ := hrow a (by simpa using ha)
    obtain ⟨rb, hrb, hbe⟩ := hrow b (by simpa using hb)
    apply postCmp_neg_iff
    · rw [hae]; exact hrange ra hra
    · rw [hbe]; exact hrange rb hrb
    · rw [hae, hbe]
      have h1 : (ra.CreatedAt : Int) - rb.CreatedAt < 2 ^ 63 := hclose ra hra rb hrb
      have h2 : (rb.CreatedAt : Int) - ra.CreatedAt < 2 ^ 63 := hclose rb hrb ra hra
      constructor
      · have h3 := neg_lt_neg h1
        rw [neg_sub] at h3
        exact le_of_lt h3
      · exact h2
  · exact List.Pairwise.nil

/-- Timestamps from the Unix epoch up to the end of the `int64` nanosecond range
(the years 1970 to 2262) are never 2^63 nanoseconds apart: for such rows
`makePosts` returns the posts newest first. -/
theorem makePosts_descending_of_nonneg (f : List Post → List Post) (rs : List Post)
    (tok : String) (hperm : ∀ l, (f l).Perm l)
    (hrange : ∀ r ∈ rs, 0 ≤ r.CreatedAt ∧ r.CreatedAt < 2 ^ 63) :
    descending (makePosts f rs tok).1 = true := by
  apply makePosts_descending_of_close f rs tok hperm
  · intro r hr
    exact ⟨le_trans (by norm_num) (hrange r hr).1, (hrange r hr).2⟩
  · intro a ha b hb
    exact lt_of_le_of_lt (sub_le_self _ (hrange b hb).1) (hrange a ha).2

/-- Every post returned by `makePosts` carries the `Comments` field of the first
row with its id, untouched: the loop never stores an extended comment list. -/
theorem makePosts_keeps_row_comments (f : List Post → List Post) (rs : List Post)
    (tok : String) (hperm : ∀ l, (f l).Perm l) (p : Post)
    (hp : p ∈ (makePosts f rs tok).1) :
    ∃ r, firstRow rs p.ID = some r ∧ p.Comments = r.Comments := by
  obtain ⟨r, hr, hpr⟩ := (mem_makePosts f rs tok hperm p).1 hp
  refine ⟨r, ?_, by rw [hpr]⟩
  rw [hpr]
  exact hr

/-! ## makePosts: claims -/

/-- C11 at two joined rows of post 3, each with a valid comment: the comment list
described for post 3 has the two comments, in input order, but the post returned
by `makePosts` has an empty `Comments` list. -/
theorem makePosts_drops_comments :
    describedComments commentedRows 3 =
      [{ Comment := "nice", AuthorName := "admin" },
       { Comment := "thanks", AuthorName := "seven" }] ∧
    (makePosts id commentedRows "").1.map (fun p => (p.ID, p.Comments)) = [(3, [])] ∧
    (makePosts id commentedRows "").2 = none := by
  decide

/-- C12, as stated for every list of rows, fails: for two posts whose creation
times (years 1823 and 2116, both valid `int64` nanosecond counts) are more than
2^63 nanoseconds apart the `int64` difference overflows, the comparator reports the
older post as the one to come first, and `makePosts` returns the older post before
the newer one, for either iteration order of the map. -/
theorem makePosts_ascending_on_overflow :
    oldPost.CreatedAt < newPost.CreatedAt ∧
    UnixNano oldPost.CreatedAt = oldPost.CreatedAt ∧
    UnixNano newPost.CreatedAt = newPost.CreatedAt ∧
    postCmp oldPost newPost < 0 ∧ 0 < postCmp newPost oldPost ∧
    (makePosts id [newPost, oldPost] "").1 = [oldPost, newPost] ∧
    (makePosts List.reverse [newPost, oldPost] "").1 = [oldPost, newPost] ∧
    descending (makePosts id [newPost, oldPost] "").1 = false ∧
    descending (makePosts List.reverse [newPost, oldPost] "").1 = false := by
  decide

/-- C12, amended. For every list of rows whose `CreatedAt` values are `int64`
nanosecond counts no two of which are 2^63 nanoseconds or more apart, and with the
map visited in any order (each entry once), every element of the slice returned
by `makePosts` has a `CreatedAt` not earlier than that of the element that follows
it. -/
theorem makePosts_descending (mapRange : List Post → List Post) (rs : List Post)
    (tok : String) (hperm : ∀ l, (mapRange l).Perm l)
    (hrange : ∀ r ∈ rs, - 2 ^ 63 ≤ r.CreatedAt ∧ r.CreatedAt < 2 ^ 63)
    (hclose : ∀ a ∈ rs, ∀ b ∈ rs, a.CreatedAt - b.CreatedAt < 2 ^ 63) :
    descending (makePosts mapRange rs tok).1 = true :=
  makePosts_descending_of_close mapRange rs tok hperm hrange hclose

/-- C12 amended, at three rows whose later post comes last in the input. -/
theorem makePosts_descending_witness :
    (∀ l : List Post, (id l).Perm l) ∧
    (∀ r ∈ feedRows, - 2 ^ 63 ≤ r.CreatedAt ∧ r.CreatedAt < 2 ^ 63) ∧
    (∀ a ∈ feedRows, ∀ b ∈ feedRows, a.CreatedAt - b.CreatedAt < 2 ^ 63) ∧
    descending (makePosts id feedRows "tok").1 = true :=
  ⟨fun l => List.Perm.refl l, by decide, by decide,
   makePosts_descending id feedRows "tok" (fun l => List.Perm.refl l) (by decide) (by decide)⟩

/-- C13 (`makePosts` de-duplicates by post id). For every list of rows and every
token, with the map visited in any order (each entry once): the error is nil; no
id occurs twice in the result; the ids of the result are exactly the ids of the
input, so the length is the number of distinct input ids; and every returned post
is the first input row carrying its id with `CSRFToken` set to the token. -/
theorem makePosts_dedup (mapRange : List Post → List Post) (rs : List Post) (tok : String)
    (hperm : ∀ l, (mapRange l).Perm l) :
    (makePosts mapRange rs tok).2 = none ∧
    ((makePosts mapRange rs tok).1.map (fun p => p.ID)).Nodup ∧
    (∀ id, id ∈ (makePosts mapRange rs tok).1.map (fun p => p.ID) ↔
           id ∈ rs.map (fun p => p.ID)) ∧
    (makePosts mapRange rs tok).1.length = (rs.map (fun p => p.ID)).toFinset.card ∧
    (∀ p ∈ (makePosts mapRange rs tok).1,
      ∃ r, firstRow rs p.ID = some r ∧ p = { r with CSRFToken := tok }) := by
  have hP := makePosts_perm mapRange rs tok hperm
  have hids : ((makePosts mapRange rs tok).1.map (fun p => p.ID)).Perm
      ((buildPostMap [] rs).map (fun p => p.ID)) := by
    have h1 := hP.map (fun p : Post => p.ID)
    rw [List.map_map] at h1
    exact h1
  have hnd : ((makePosts mapRange rs tok).1.map (fun p => p.ID)).Nodup :=
    hids.nodup_iff.2 (buildPostMap_nodup [] rs List.nodup_nil)
  have hmem : ∀ id, id ∈ (makePosts mapRange rs tok).1.map (fun p => p.ID) ↔
      id ∈ rs.map (fun p => p.ID) := by
    intro id
    rw [hids.mem_iff, List.mem_map, List.mem_map]
    constructor
    · rintro ⟨r, hr, hid⟩
      have h2 := (mem_buildPostMap [] rs r).1 hr
      simp only [List.not_mem_nil, false_or] at h2
      exact ⟨r, List.mem_of_find?_eq_some h2.2, hid⟩
    · rintro ⟨r, hr, hid⟩
      cases hf : firstRow rs id with
      | none =>
        have hnone := List.find?_eq_none.1 hf r hr
        simp [hid] at hnone
      | some q =>
        have hq : q.ID = id := by
          have := List.find?_some hf
          simpa using this
        refine ⟨q, (mem_buildPostMap [] rs q).2 (Or.inr ⟨by simp, ?_⟩), hq⟩
        rw [hq]
        exact hf
  refine ⟨rfl, hnd, hmem, ?_, ?_⟩
  · have hlen : (makePosts mapRange rs tok).1.length =
        ((makePosts mapRange rs tok).1.map (fun p => p.ID)).length := by simp
    rw [hlen, ← List.toFinset_card_of_nodup hnd]
    congr 1
    ext id
    simp only [List.mem_toFinset]
    exact hmem id
  · intro p hp
    obtain ⟨r, hr, hpr⟩ := (mem_makePosts mapRange rs tok hperm p).1 hp
    refine ⟨r, ?_, hpr⟩
    rw [hpr]
    exact hr

/-- C13 at three rows with two distinct ids. -/
theorem makePosts_dedup_witness :
    (∀ l : List Post, (id l).Perm l) ∧
    (makePosts id (commentedRows ++ [oldPost]) "tok").2 = none ∧
    ((makePosts id (commentedRows ++ [oldPost]) "tok").1.map (fun p => p.ID)).Nodup ∧
    (∀ i, i ∈ (makePosts id (commentedRows ++ [oldPost]) "tok").1.map (fun p => p.ID) ↔
          i ∈ (commentedRows ++ [oldPost]).map (fun p => p.ID)) ∧
    (makePosts id (commentedRows ++ [oldPost]) "tok").1.length =
      ((commentedRows ++ [oldPost]).map (fun p => p.ID)).toFinset.card ∧
    (∀ p ∈ (makePosts id (commentedRows ++ [oldPost]) "tok").1,
      ∃ r, firstRow (commentedRows ++ [oldPost]) p.ID = some r ∧
           p = { r with CSRFToken := "tok" }) :=
  ⟨fun l => List.Perm.refl l,
   makePosts_dedup id (commentedRows ++ [oldPost]) "tok" (fun l => List.Perm.refl l)⟩

/-! ## The step relation: lemmas -/

theorem dbGetUser_sameSlot (env : Env) (uid : Int) (w : World) :
    sameSlot w (dbGetUser env uid w).2 := by
  unfold dbGetUser
  simp only []
  split
  · exact ⟨rfl, rfl, rfl, rfl, rfl, rfl, rfl⟩
  · split <;> exact ⟨rfl, rfl, rfl, rfl, rfl, rfl, rfl⟩

theorem getSessionUser_sameSlot (env : Env) (r : Request) (w : World) :
    sameSlot w (getSessionUser env r w).2 := by
  unfold getSessionUser
  split
  · exact sameSlot_refl w
  · rename_i uid _
    split
    · exact sameSlot_refl w
    · have h := dbGetUser_sameSlot env uid w
      split
      · rename_i heq
        rw [heq] at h
        exact h
      · rename_i heq
        rw [heq] at h
        exact h

theorem dbExecOther_sameSlot (env : Env) (w : World) : sameSlot w (dbExecOther env w).2 :=
  ⟨rfl, rfl, rfl, rfl, rfl, rfl, rfl⟩

theorem banLoop_sameSlot (env : Env) (ids : List String) (w : World) :
    sameSlot w (banLoop env ids w) := by
  induction ids generalizing w with
  | nil => exact sameSlot_refl w
  | cons id rest ih =>
    unfold banLoop
    refine sameSlot_trans ?_ (ih _)
    exact dbExecUsers_sameSlot env _ w

theorem postAdminBanned_sameSlot (env : Env) (r : Request) (w : World) :
    sameSlot w (postAdminBanned env r w).2 := by
  have h1 := getSessionUser_sameSlot env r w
  unfold postAdminBanned
  simp only []
  split
  · exact h1
  · split
    · exact h1
    · split
      · exact h1
      · split
        · exact h1
        · exact sameSlot_trans h1 (banLoop_sameSlot env _ _)

theorem postComment_sameSlot (env : Env) (r : Request) (w : World) :
    sameSlot w (postComment env r w).2 := by
  have h1 := getSessionUser_sameSlot env r w
  have h2 := sameSlot_trans h1 (dbExecOther_sameSlot env (getSessionUser env r w).2)
  unfold postComment
  simp only []
  split
  · exact h1
  · split
    · exact h1
    · split
      · exact h1
      · split
        · rename_i heq
          rw [← congrArg Prod.snd heq]
          exact h2
        · rename_i heq
          rw [← congrArg Prod.snd heq]
          exact h2

theorem postIndex_sameSlot (env : Env) (r : Request) (inp : PostIndexInput) (w : World) :
    sameSlot w (postIndex env r inp w).2 := by
  have h1 := getSessionUser_sameSlot env r w
  have h2 := sameSlot_trans h1 (dbExecOther_sameSlot env (getSessionUser env r w).2)
  rcases hgs : getSessionUser env r w with ⟨me, w1⟩
  rw [hgs] at h1 h2
  rcases hdb : dbExecOther env w1 with ⟨e, w2⟩
  rw [hdb] at h2
  unfold postIndex
  simp only [hgs, hdb]
  repeat' split
  all_goals first
    | exact h1
    | (cases ‹(e, w2) = _›; exact h2)

theorem sameSlot_unlocked {w w1 : World} (h : sameSlot w w1) (hu : unlocked w) :
    unlocked w1 :=
  ⟨h.2.2.2.1.trans hu.1, h.2.2.2.2.1.trans hu.2⟩

theorem updateIndexPosts_unlocked (env : Env) (w : World) (res : String × Option Error)
    (w1 : World) (hu : unlocked w) (h : updateIndexPosts env w = some (res, w1)) :
    unlocked w1 := by
  by_cases hf : fresh w
  · rw [updateIndexPosts_fresh env w hu.1 hf] at h
    injection h with h
    injection h with _ h
    rw [← h]
    exact hu
  · cases hr : recompute env w.dbCalls with
    | error e =>
      rw [updateIndexPosts_stale_err env w e hu hf hr] at h
      injection h with h
      injection h with _ h
      rw [← h]
      exact hu
    | ok s =>
      rw [updateIndexPosts_stale_ok env w s hu hf hr] at h
      injection h with h
      injection h with _ h
      rw [← h]
      exact hu

/-- Every operation other than `updateIndexPosts` leaves the feed slot alone. -/
theorem step_sameSlot_or_update (env : Env) (w w1 : World) (h : Step env w w1) :
    sameSlot w w1 ∨ ∃ res, updateIndexPosts env w = some (res, w1) := by
  cases h with
  | callUpdateIndexPosts _ res _ h => exact Or.inr ⟨res, h⟩
  | callGetInitialize => exact Or.inl (getInitialize_sameSlot env w)
  | callPostIndex r inp => exact Or.inl (postIndex_sameSlot env r inp w)
  | callPostComment r => exact Or.inl (postComment_sameSlot env r w)
  | callPostAdminBanned r => exact Or.inl (postAdminBanned_sameSlot env r w)
  | callGetSessionUser r => exact Or.inl (getSessionUser_sameSlot env r w)
  | cacheSet key u => exact Or.inl ⟨rfl, rfl, rfl, rfl, rfl, rfl, rfl⟩
  | cacheRemove key => exact Or.inl ⟨rfl, rfl, rfl, rfl, rfl, rfl, rfl⟩
  | cacheClear => exact Or.inl ⟨rfl, rfl, rfl, rfl, rfl, rfl, rfl⟩

theorem step_unlocked (env : Env) (w w1 : World) (h : Step env w w1) (hu : unlocked w) :
    unlocked w1 := by
  rcases step_sameSlot_or_update env w w1 h with hs | ⟨res, hr⟩
  · exact sameSlot_unlocked hs hu
  · exact updateIndexPosts_unlocked env w res w1 hu hr

theorem reachable_unlocked (env : Env) (users : List User) (w : World)
    (h : Reachable env users w) : unlocked w := by
  unfold Reachable at h
  induction h with
  | refl => exact ⟨rfl, rfl⟩
  | tail _ hstep ih => exact step_unlocked env _ _ hstep ih

/-- One operation from a fresh slot with the mutex free: the three slot variables
are unchanged. -/
theorem step_keeps_fresh_slot (env : Env) (w w1 : World) (h : Step env w w1)
    (hu : unlocked w) (hf : fresh w) :
    w1.lastUpdated = w.lastUpdated ∧ w1.lastTriggered = w.lastTriggered ∧
    w1.indexContent = w.indexContent := by
  rcases step_sameSlot_or_update env w w1 h with hs | ⟨res, hr⟩
  · exact ⟨hs.2.1, hs.2.2.1, hs.1⟩
  · rw [updateIndexPosts_fresh env w hu.1 hf] at hr
    injection hr with hr
    injection hr with _ hr
    rw [← hr]
    exact ⟨rfl, rfl, rfl⟩

theorem steps_keep_fresh_slot (env : Env) (w w1 : World)
    (h : Relation.ReflTransGen (Step env) w w1) (hu : unlocked w) (hf : fresh w) :
    unlocked w1 ∧ w1.lastUpdated = w.lastUpdated ∧ w1.lastTriggered = w.lastTriggered ∧
    w1.indexContent = w.indexContent := by
  induction h with
  | refl => exact ⟨hu, rfl, rfl, rfl⟩
  | @tail b c _ hstep ih =>
    obtain ⟨hu1, h1, h2, h3⟩ := ih
    have hf1 : fresh b := by
      unfold fresh at hf ⊢
      rw [h1, h2]
      exact hf
    obtain ⟨k1, k2, k3⟩ := step_keeps_fresh_slot env b c hstep hu1 hf1
    exact ⟨step_unlocked env b c hstep hu1, k1.trans h1, k2.trans h2, k3.trans h3⟩

/-! ## The step relation: claim -/

/-- C14 (once fresh, always fresh). In the sequential step relation whose steps
are `updateIndexPosts`, `getInitialize`, `postIndex`, `postComment`,
`postAdminBanned`, `getSessionUser` and the `userCache` operations: from a
reachable state in which the slot is fresh, after any number of steps (in
particular after one) `lastUpdated`, `lastTriggered` and `indexContent` are
unchanged, the slot is still fresh, and `updateIndexPosts` returns the same
content with a nil error. -/
theorem once_fresh_always_fresh (env : Env) (users : List User) (w w1 : World)
    (hreach : Reachable env users w) (hf : fresh w)
    (hsteps : Relation.ReflTransGen (Step env) w w1) :
    w1.lastUpdated = w.lastUpdated ∧ w1.lastTriggered = w.lastTriggered ∧
    w1.indexContent = w.indexContent ∧ fresh w1 ∧
    ∃ w2 : World, updateIndexPosts env w1 = some ((w.indexContent, none), w2) ∧
      w2.indexContent = w.indexContent ∧ w2.indexQueries = w1.indexQueries := by
  have hu := reachable_unlocked env users w hreach
  obtain ⟨hu1, h1, h2, h3⟩ := steps_keep_fresh_slot env w w1 hsteps hu hf
  have hf1 : fresh w1 := by
    unfold fresh at hf ⊢
    rw [h1, h2]
    exact hf
  have hrun := updateIndexPosts_fresh env w1 hu1.1 hf1
  rw [h3] at hrun
  exact ⟨h1, h2, h3, hf1, _, hrun, rfl, rfl⟩

/-- C14 from the state after the first served feed, through a flush, a new post,
a comment and a ban. -/
theorem once_fresh_always_fresh_witness :
    Reachable okEnv [adminUser, user7] servedWorld ∧ fresh servedWorld ∧
    Relation.ReflTransGen (Step okEnv) servedWorld busyWorld ∧
    busyWorld.lastUpdated = servedWorld.lastUpdated ∧
    busyWorld.lastTriggered = servedWorld.lastTriggered ∧
    busyWorld.indexContent = servedWorld.indexContent ∧ fresh busyWorld ∧
    ∃ w2 : World,
      updateIndexPosts okEnv busyWorld = some ((servedWorld.indexContent, none), w2) ∧
      w2.indexContent = servedWorld.indexContent ∧
      w2.indexQueries = busyWorld.indexQueries :=
  have hreach : Reachable okEnv [adminUser, user7] servedWorld :=
    Relation.ReflTransGen.single
      (Step.callUpdateIndexPosts startWorld ("some posts", none) servedWorld (by decide))
  have hsteps : Relation.ReflTransGen (Step okEnv) servedWorld busyWorld :=
    (((Relation.ReflTransGen.single (Step.callGetInitialize servedWorld)).tail
        (Step.callPostIndex commentRequest uploadInput _)).tail
        (Step.callPostComment commentRequest _)).tail
        (Step.callPostAdminBanned banRequest _)
  ⟨hreach, by decide, hsteps,
   once_fresh_always_fresh okEnv [adminUser, user7] servedWorld busyWorld hreach (by decide)
     hsteps⟩

/-! ## Two concurrent callers: lemmas -/

/-- Cutting `updateIndexPosts` after the staleness check loses nothing: the check
followed by the rest is the function itself, on every state. -/
theorem updateIndexPosts_split (env : Env) (w : World) :
    updateIndexPosts env w =
      match updateIndexPostsCheck w with
      | none => none
      | some (checked, w1) => updateIndexPostsFinish env checked w1 := by
  unfold updateIndexPosts updateIndexPostsCheck
  cases hl : RLock w with
  | none => rfl
  | some w1 =>
    simp only []
    by_cases ha : After w1.lastUpdated w1.lastTriggered = true
    · simp only [ha, if_true]
      cases RUnlock w1 <;> rfl
    · simp only [ha]
      cases RUnlock w1 <;> rfl

/-- The check of a caller that meets a stale slot with the mutex free. -/
theorem updateIndexPostsCheck_stale (w : World) (hu : unlocked w) (hs : ¬ fresh w) :
    updateIndexPostsCheck w =
      some (none, { w with trace := w.trace ++ [Event.RLock, Event.RUnlock] }) := by
  obtain ⟨hw, hrd⟩ := hu
  unfold fresh at hs
  simp [updateIndexPostsCheck, RLock, RUnlock, After, hw, hrd, hs]

/-- The rest of a call, entered with the mutex free, runs the feed query once
whether or not the slot has become fresh in the meantime, and returns the outcome
of that run. -/
theorem updateIndexPostsRest_runs (env : Env) (w : World) (hu : unlocked w) :
    ∃ w1 : World,
      updateIndexPostsRest env w =
        some ((match recompute env w.dbCalls with
               | Except.ok s => (s, none)
               | Except.error e => ("", some e)), w1) ∧
      unlocked w1 ∧ w1.indexQueries = w.indexQueries + 1 ∧ w1.dbCalls = w.dbCalls + 1 := by
  obtain ⟨hw, hrd⟩ := hu
  cases hdb : env.dbError w.dbCalls with
  | none =>
    have hr : recompute env w.dbCalls =
        Except.ok (env.render (makePosts env.mapRange (env.indexRows w.dbCalls) "").1) :=
      (recompute_ok_iff env w.dbCalls _).2 ⟨hdb, rfl⟩
    rw [hr]
    simp [updateIndexPostsRest, sfDo, indexPostsClosure, Lock, Unlock, RLock, RUnlock, timeNow,
      indexPostsBody, dbSelectIndex, hdb, makePosts, hw, hrd, unlocked]
  | some e =>
    have hr : recompute env w.dbCalls = Except.error e :=
      (recompute_error_iff env w.dbCalls e).2 hdb
    rw [hr]
    simp [updateIndexPostsRest, sfDo, indexPostsClosure, Lock, Unlock, RLock, RUnlock, timeNow,
      indexPostsBody, dbSelectIndex, hdb, hw, hrd, unlocked]

/-- Two callers that both check before either recomputes: each runs the feed query
itself, and each returns the outcome of its own run. -/
theorem twoCallers_recompute_twice (env : Env) (w : World) (hu : unlocked w)
    (hs : ¬ fresh w) :
    ∃ w1 : World,
      twoCallers env w =
        some ((match recompute env w.dbCalls with
               | Except.ok s => (s, none)
               | Except.error e => ("", some e)),
              (match recompute env (w.dbCalls + 1) with
               | Except.ok s => (s, none)
               | Except.error e => ("", some e)), w1) ∧
      w1.indexQueries = w.indexQueries + 2 := by
  have hcA := updateIndexPostsCheck_stale w hu hs
  have huA : unlocked { w with trace := w.trace ++ [Event.RLock, Event.RUnlock] } := hu
  have hsA : ¬ fresh { w with trace := w.trace ++ [Event.RLock, Event.RUnlock] } := hs
  have hcB := updateIndexPostsCheck_stale _ huA hsA
  have huB : unlocked
      { ({ w with trace := w.trace ++ [Event.RLock, Event.RUnlock] } : World) with
          trace := (w.trace ++ [Event.RLock, Event.RUnlock]) ++ [Event.RLock, Event.RUnlock] } :=
    hu
  obtain ⟨w3, hA, hu3, hq3, hd3⟩ := updateIndexPostsRest_runs env _ huB
  obtain ⟨w4, hB, _, hq4, _⟩ := updateIndexPostsRest_runs env w3 hu3
  refine ⟨w4, ?_, ?_⟩
  · unfold twoCallers
    rw [hcA]
    simp only [hcB, updateIndexPostsFinish, hA, hB, hd3]
  · rw [hq4, hq3]

/-! ## Two concurrent callers: claim -/

/-- C4 at a burst of two callers from the stale start state, scheduled as check of
A, check of B, rest of A, rest of B. Both checks find the slot stale, and the feed
query runs twice, not once. With a database that fails its first statement only,
A returns the error and B returns content with a nil error: the two callers do not
receive the same result. -/
theorem stale_burst_recomputes_twice :
    ¬ fresh startWorld ∧ unlocked startWorld ∧ startWorld.indexQueries = 0 ∧
    (updateIndexPostsCheck startWorld).map (fun r => r.1) = some none ∧
    ((updateIndexPostsCheck startWorld).bind
        (fun r => updateIndexPostsCheck r.2)).map (fun r => r.1) = some none ∧
    (twoCallers okEnv startWorld).map (fun r => (r.1, r.2.1, r.2.2.indexQueries)) =
      some (("some posts", none), ("some posts", none), 2) ∧
    (twoCallers flakyEnv startWorld).map (fun r => (r.1, r.2.1, r.2.2.indexQueries)) =
      some (("", some { msg := "boom" }), ("some posts", none), 2) := by
  decide

end PrivateIsu
